import Mathlib

/-!
Verification of the DockQ scoring program (`DockQ.py`) against its
natural-language specification.

The development shallowly embeds the program's data model and operations:

* numeric values are embedded as rationals (`ℚ`); the program's floating point
  arithmetic is idealised as exact rational arithmetic;
* Euclidean distances are represented by their squares throughout: the source
  computes `np.sqrt` of a sum of squares and only ever compares the result
  against a nonnegative threshold, and `sqrt d < t ↔ d < t²` for `t ≥ 0`, so
  every threshold comparison is embedded as a comparison of squared distance
  against squared threshold;
* Python name-binding and call-binding semantics, where a claim is about them,
  are embedded explicitly (environments as association lists of bound names);
* `numpy` true division of integer counts is embedded including its behaviour
  on zero denominators (it yields a non-finite value and does not raise).
-/

/-! ## Scorer (source: `capri_class_DockQ`, lines 180–194, and the DockQ
formula of `calc_DockQ`, lines 426–430) -/

/-- Embedding of `capri_class_DockQ(DockQ, capri_peptide)` (lines 180–194).
The thresholds `(c1, c2, c3) = (0.23, 0.49, 0.80)` and the if/elif chain are
taken verbatim from the source; numbers are rationals. -/
def capri_class_DockQ (dockq : ℚ) (capri_peptide : Bool) : String :=
  if capri_peptide then "Undef for capri_peptides"
  else
    if dockq < 0.23 then "Incorrect"
    else if dockq ≥ 0.23 ∧ dockq < 0.49 then "Acceptable"
    else if dockq ≥ 0.49 ∧ dockq < 0.80 then "Medium"
    else if dockq ≥ 0.80 then "High"
    else "Undef"

/-- Embedding of the DockQ combination formula assigned at lines 426–430 of
`calc_DockQ`:
`(float(fnat) + 1/(1+(irms/1.5)*(irms/1.5)) + 1/(1+(Lrms/8.5)*(Lrms/8.5))) / 3`. -/
def calc_DockQ_score (fnat irms lrms : ℚ) : ℚ :=
  (fnat + 1 / (1 + (irms / 1.5) * (irms / 1.5))
        + 1 / (1 + (lrms / 8.5) * (lrms / 8.5))) / 3

/-- C5: the DockQ score assigned by `calc_DockQ` (lines 426–430) equals
`(fnat + 1/(1+(iRMS/1.5)²) + 1/(1+(LRMS/8.5)²)) / 3` for the `fnat`, `irms`
and `Lrms` values in scope at that line. -/
theorem c5_dockq_formula (f i l : ℚ) :
    calc_DockQ_score f i l
      = (f + 1 / (1 + (i / 1.5) ^ 2) + 1 / (1 + (l / 8.5) ^ 2)) / 3 := by
  unfold calc_DockQ_score
  ring

/-- C7: the DockQ-only CAPRI classifier returns `Incorrect` below `0.23`,
`Acceptable` on `[0.23, 0.49)`, `Medium` on `[0.49, 0.80)`, `High` at and
above `0.80` (all lower bounds inclusive), and in peptide mode it returns a
string outside that four-class set. -/
theorem c7_capri_class_DockQ_thresholds (q : ℚ) :
    (q < 0.23 → capri_class_DockQ q false = "Incorrect") ∧
    (0.23 ≤ q → q < 0.49 → capri_class_DockQ q false = "Acceptable") ∧
    (0.49 ≤ q → q < 0.80 → capri_class_DockQ q false = "Medium") ∧
    (0.80 ≤ q → capri_class_DockQ q false = "High") ∧
    capri_class_DockQ q true ∉ (["Incorrect", "Acceptable", "Medium", "High"] : List String) := by
  unfold capri_class_DockQ
  refine ⟨?_, ?_, ?_, ?_, by simp⟩
  · intro h
    rw [if_neg (by simp), if_pos h]
  · intro h1 h2
    rw [if_neg (by simp), if_neg (not_lt.mpr h1), if_pos ⟨h1, h2⟩]
  · intro h1 h2
    have ha : ¬ (q < 0.23) := by rw [not_lt]; norm_num at h1 ⊢; linarith
    have hb : ¬ (q ≥ 0.23 ∧ q < 0.49) := by
      rintro ⟨-, hc⟩; norm_num at h1 hc; linarith
    rw [if_neg (by simp), if_neg ha, if_neg hb, if_pos ⟨h1, h2⟩]
  · intro h1
    have ha : ¬ (q < 0.23) := by rw [not_lt]; norm_num at h1 ⊢; linarith
    have hb : ¬ (q ≥ 0.23 ∧ q < 0.49) := by
      rintro ⟨-, hc⟩; norm_num at h1 hc; linarith
    have hc : ¬ (q ≥ 0.49 ∧ q < 0.80) := by
      rintro ⟨-, hd⟩; norm_num at h1 hd; linarith
    rw [if_neg (by simp), if_neg ha, if_neg hb, if_neg hc, if_pos h1]

/-- Witness for C7 at the boundary inputs named by the specification:
`DockQ = 0.23` classifies as `Acceptable` and `DockQ = 0.2299999` as
`Incorrect`. -/
theorem c7_capri_class_DockQ_thresholds_witness :
    capri_class_DockQ (23 / 100) false = "Acceptable" ∧
    capri_class_DockQ (2299999 / 10000000) false = "Incorrect" :=
  ⟨(c7_capri_class_DockQ_thresholds (23 / 100)).2.1 (by norm_num) (by norm_num),
   (c7_capri_class_DockQ_thresholds (2299999 / 10000000)).1 (by norm_num)⟩

/-! ## Python name-binding semantics for the body of `calc_DockQ`
(source lines 197–450)

The body of `calc_DockQ` after line 212 is straight-line at the level of name
binding (every conditional in it either only selects the value assigned to a
name that is bound on both branches, or appears inside a conditional
expression).  We embed each statement as the set of names it reads and the
names it binds, and execute the body over an environment of bound names:
reading an unbound name raises `NameError`, exactly as in Python.  Value-level
behaviour (arithmetic, the superimposer, assertions) is abstracted away: the
embedding models any run in which those value-level operations succeed, which
is the situation the claim describes. -/

/-- A Python statement abstracted to name binding: `assign targets reads`
evaluates `reads` then binds `targets`; `exprStmt reads` evaluates an
expression (for effect) reading `reads`.  The string literal spanning source
lines 263–367 is an expression statement reading nothing and binding
nothing. -/
inductive PyStmt where
  | assign : List String → List String → PyStmt
  | exprStmt : List String → PyStmt
deriving DecidableEq

/-- Execute statements over the environment of bound names.  The first read of
a name not in the environment stops execution with that name and the
environment at that point (Python's `NameError`). -/
def runPyStmts : List PyStmt → List String → Except (String × List String) (List String)
  | [], env => .ok env
  | .assign ts rs :: rest, env =>
      match rs.find? (fun r => !env.contains r) with
      | some r => .error (r, env)
      | none => runPyStmts rest (env ++ ts.filter (fun t => !env.contains t))
  | .exprStmt rs :: rest, env =>
      match rs.find? (fun r => !env.contains r) with
      | some r => .error (r, env)
      | none => runPyStmts rest env

/-- Module-level names visible inside `calc_DockQ` (imports and the other
functions of `DockQ.py`, plus builtins it uses). -/
def calc_DockQ_globals : List String :=
  ["np", "Bio", "SVDSuperimposer", "get_fnat", "get_interface",
   "print", "list", "len", "float", "str"]

/-- The parameters of `calc_DockQ` (line 197), bound on entry. -/
def calc_DockQ_param_names : List String :=
  ["sample_model", "ref_model", "group1", "group2",
   "nat_group1", "nat_group2", "use_CA_only", "capri_peptide"]

/-- The body of `calc_DockQ` (lines 200–450), statement by statement, each
with the names it binds and the names it reads.  Lines 263–367 are a single
triple-quoted string literal: an expression statement that binds nothing (the
assignments to `chain_res`, `chain_ref` and `chain_sample` that the spec
describes sit inside this literal as text).  Line 376 reads `chain_sample`. -/
def calc_DockQ_body : List PyStmt :=
  [ .assign ["atom_for_sup"] [],                                  -- line 200
    .assign ["atom_for_sup"] ["use_CA_only"],                     -- lines 201–202
    .assign ["threshold"] ["capri_peptide"],                      -- line 207
    .assign ["interface_threshold"] ["capri_peptide"],            -- line 208
    .assign ["all_atom"] ["capri_peptide"],                       -- line 209
    .assign ["nat_correct", "nonnat_count", "nat_total", "model_total"]
        ["get_fnat", "sample_model", "ref_model", "group1", "group2",
         "nat_group1", "nat_group2", "threshold"],                -- line 213
    .assign ["fnat"] ["nat_correct", "nat_total"],                -- line 214
    .assign ["fnonnat"] ["nonnat_count", "model_total"],          -- line 215
    .assign ["sample_interface", "ref_interface"]
        ["get_interface", "sample_model", "ref_model", "group1", "group2",
         "nat_group1", "nat_group2", "interface_threshold", "all_atom"],  -- line 216
    .assign ["ref_atoms"] [],                                     -- line 257
    .assign ["sample_atoms"] [],                                  -- line 258
    .assign ["common_interface"] [],                              -- line 260
    .assign ["chain_res"] [],                                     -- line 262
    .exprStmt [],                                                 -- lines 263–367 (string literal)
    .assign ["ref_atoms"] ["ref_interface", "atom_for_sup"],      -- line 368
    .assign ["sample_atoms"] ["sample_interface", "atom_for_sup"], -- line 369
    .assign ["super_imposer"] ["Bio"],                            -- line 370
    .exprStmt ["super_imposer", "ref_atoms", "sample_atoms"],     -- line 371
    .exprStmt ["super_imposer", "sample_model"],                  -- line 372
    .assign ["irms"] ["super_imposer"],                           -- line 374
    .exprStmt ["print", "irms"],                                  -- line 375
    .assign ["chain1", "chain2"] ["list", "chain_sample"],        -- line 376
    .assign ["ligand_chain"] ["chain1"],                          -- line 378
    .assign ["receptor_chain"] ["chain2"],                        -- line 379
    .assign ["len1"] ["len", "chain_res", "chain1"],              -- line 380
    .assign ["len2"] ["len", "chain_res", "chain2"],              -- line 381
    .exprStmt ["len1", "chain1"],                                 -- line 383
    .exprStmt ["len2", "chain2"],                                 -- line 384
    .assign ["class1"] [],                                        -- line 386
    .assign ["class2"] [],                                        -- line 387
    .assign ["receptor_chain", "ligand_chain", "class1", "class2"]
        ["len", "chain_sample", "chain1", "chain2"],              -- lines 388–392
    .exprStmt ["len", "chain_ref", "chain_sample", "receptor_chain"],  -- lines 395–402
    .exprStmt ["super_imposer", "chain_ref", "chain_sample", "receptor_chain"],  -- line 404
    .exprStmt ["super_imposer", "sample_model"],                  -- line 405
    .assign ["receptor_chain_rms"] ["super_imposer"],             -- line 406
    .exprStmt ["len", "chain_ref", "chain_sample", "ligand_chain"],  -- lines 408–416
    .assign ["coord1"] ["np", "chain_ref", "ligand_chain"],       -- line 418
    .assign ["coord2"] ["np", "chain_sample", "ligand_chain"],    -- line 419
    .assign ["sup"] ["SVDSuperimposer"],                          -- line 421
    .assign ["Lrms"] ["sup", "coord1", "coord2"],                 -- line 422
    .assign ["DockQ"] ["float", "fnat", "irms", "Lrms"],          -- lines 426–430
    .assign ["info"] [],                                          -- line 431
    .exprStmt ["info", "DockQ", "irms", "Lrms", "fnat", "nat_correct",
       "nat_total", "fnonnat", "nonnat_count", "model_total", "chain1",
       "chain2", "len1", "len2", "class1", "class2"],             -- lines 432–448
    .exprStmt ["info"] ]                                          -- line 450 (return)

/-- The result of running the body of `calc_DockQ` from its entry
environment. -/
def calc_DockQ_run : Except (String × List String) (List String) :=
  runPyStmts calc_DockQ_body (calc_DockQ_globals ++ calc_DockQ_param_names)

/-- The name whose lookup failed, if the run raised `NameError`. -/
def pyRunErrorName : Except (String × List String) (List String) → Option String
  | .error (n, _) => some n
  | .ok _ => none

/-- The names bound at the point of failure (or at return). -/
def pyRunBound : Except (String × List String) (List String) → List String
  | .error (_, env) => env
  | .ok env => env

/-- C1: every execution of the body of `calc_DockQ` whose value-level
operations succeed raises `NameError` for `chain_sample` at line 376: at the
point of failure `irms`, `fnat` and `chain_res` are bound but `chain_sample`
and `chain_ref` were never bound, and no later name — in particular neither
`Lrms` nor `DockQ` — is ever bound, so no DockQ value is ever produced. -/
theorem c1_calc_DockQ_raises_NameError :
    pyRunErrorName calc_DockQ_run = some "chain_sample" ∧
    (pyRunBound calc_DockQ_run).contains "irms" = true ∧
    (pyRunBound calc_DockQ_run).contains "fnat" = true ∧
    (pyRunBound calc_DockQ_run).contains "fnonnat" = true ∧
    (pyRunBound calc_DockQ_run).contains "chain_res" = true ∧
    (pyRunBound calc_DockQ_run).contains "chain_sample" = false ∧
    (pyRunBound calc_DockQ_run).contains "chain_ref" = false ∧
    (pyRunBound calc_DockQ_run).contains "receptor_chain" = false ∧
    (pyRunBound calc_DockQ_run).contains "Lrms" = false ∧
    (pyRunBound calc_DockQ_run).contains "DockQ" = false := by
  decide

/-! ## Python call-binding semantics for the call of `calc_DockQ` in `main`
(source lines 197 and 895–898) -/

/-- A formal parameter of a Python function: its name and whether the
signature gives it a default value. -/
structure PyParam where
  name : String
  hasDefault : Bool
deriving DecidableEq

/-- The signature of `calc_DockQ` (line 197): six parameters without
defaults followed by `use_CA_only=False, capri_peptide=False`. -/
def calc_DockQ_signature : List PyParam :=
  [⟨"sample_model", false⟩, ⟨"ref_model", false⟩, ⟨"group1", false⟩,
   ⟨"group2", false⟩, ⟨"nat_group1", false⟩, ⟨"nat_group2", false⟩,
   ⟨"use_CA_only", true⟩, ⟨"capri_peptide", true⟩]

/-- Outcome of binding a Python call to a signature. -/
inductive PyCallResult where
  | ok : PyCallResult
  | missingArgs : List String → PyCallResult
  | tooManyPositional : PyCallResult
  | unexpectedKeyword : String → PyCallResult
  | duplicateArg : String → PyCallResult
deriving DecidableEq

/-- CPython argument binding for a call with `nPos` positional arguments and
keyword arguments `kwargs` (names only; values are irrelevant to binding):
positional arguments fill the leading parameters, keywords fill by name, and
any parameter without a default left unfilled yields
`TypeError: missing required positional arguments`, listed in signature
order. -/
def bindPyCall (params : List PyParam) (nPos : Nat) (kwargs : List String) :
    PyCallResult :=
  if params.length < nPos then .tooManyPositional
  else
    let posFilled := (params.take nPos).map (fun p => p.name)
    match kwargs.find? (fun k => !(params.any (fun p => p.name == k))) with
    | some k => .unexpectedKeyword k
    | none =>
      match kwargs.find? (fun k => posFilled.contains k) with
      | some k => .duplicateArg k
      | none =>
        let filled := posFilled ++ kwargs
        let missing := (params.filter
          (fun p => !p.hasDefault && !(filled.contains p.name))).map (fun p => p.name)
        if missing.isEmpty then .ok else .missingArgs missing

/-- Which call of `calc_DockQ` the dispatch logic of `main`
(lines 714–898) reaches. -/
inductive MainBranch where
  | exitNeedGroups        -- lines 720–728
  | exitNeedTwoChains     -- lines 729–731
  | multiChain            -- lines 733–893
  | twoChain              -- lines 895–898
deriving DecidableEq

/-- The dispatch logic of `main`: with `-skip_check` both chain lists stay
empty (lines 711–716); the guards at lines 720–731 may exit; otherwise the
`len(model_chains) > 2 or len(native_chains) > 2` test (line 733) selects the
multi-chain branch, else the two-chain branch (line 895). -/
def main_dispatch (model_chains native_chains : List String) (skip_check : Bool)
    (model_chain1_given native_chain1_given : Bool) : MainBranch :=
  if (model_chains.length > 2 ∨ native_chains.length > 2) ∧
      (¬ model_chain1_given ∧ ¬ native_chain1_given) then .exitNeedGroups
  else if ¬ skip_check ∧ (model_chains.length < 2 ∨ native_chains.length < 2) then
    .exitNeedTwoChains
  else if model_chains.length > 2 ∨ native_chains.length > 2 then .multiChain
  else .twoChain

/-- The shape of the call at lines 896–898:
`calc_DockQ(model, native, use_CA_only=use_CA_only, capri_peptide=capri_peptide)`
— two positional arguments and those two keywords. -/
def two_chain_call_nPos : Nat := 2

/-- The keyword names of the call at lines 896–898. -/
def two_chain_call_kwargs : List String := ["use_CA_only", "capri_peptide"]

/-- C2: whenever `main` takes the two-chain branch (both parsed chain lists of
length ≤ 2, including the `-skip_check` case where both are empty), the call
of `calc_DockQ` it makes binds only `sample_model`, `ref_model`,
`use_CA_only` and `capri_peptide`, and raises
`TypeError: missing required positional arguments` naming exactly
`group1`, `group2`, `nat_group1`, `nat_group2`; no score is computed on this
path. -/
theorem c2_two_chain_call_missing_args (model_chains native_chains : List String)
    (skip_check model_chain1_given native_chain1_given : Bool)
    (_h : main_dispatch model_chains native_chains skip_check
          model_chain1_given native_chain1_given = .twoChain) :
    bindPyCall calc_DockQ_signature two_chain_call_nPos two_chain_call_kwargs
      = .missingArgs ["group1", "group2", "nat_group1", "nat_group2"] := by
  decide

/-- Witness for C2: a run on a standard two-chain pair (chain lists `[A, B]`
on both sides, no flags) takes the two-chain branch, so its `calc_DockQ` call
fails to bind with the four arguments missing. -/
theorem c2_two_chain_call_missing_args_witness :
    main_dispatch ["A", "B"] ["A", "B"] false false false = .twoChain ∧
    bindPyCall calc_DockQ_signature two_chain_call_nPos two_chain_call_kwargs
      = .missingArgs ["group1", "group2", "nat_group1", "nat_group2"] :=
  ⟨by decide, c2_two_chain_call_missing_args ["A", "B"] ["A", "B"] false false false (by decide)⟩

/-! ## Permutation search (source lines 785–875) -/

/-- `itertools.permutations` enumeration order: permutations emitted in
lexicographic order of source positions (for each first-element index in
input order, recurse on the remainder).  The fuel argument is the input
length. -/
def pyPermutationsAux {α : Type} : Nat → List α → List (List α)
  | 0, _ => [[]]
  | n + 1, l =>
      (List.range l.length).flatMap (fun i =>
        match l.get? i with
        | some x => (pyPermutationsAux n (l.eraseIdx i)).map (fun p => x :: p)
        | none => [])

/-- All permutations of `l` in `itertools.permutations` order. -/
def pyPermutations {α : Type} (l : List α) : List (List α) :=
  pyPermutationsAux l.length l

/-- One iteration of the nested permutation loop (lines 815–873): the
candidate orderings `g1`, `g2` of the two chain groups (used at line 817 to
write a temporary renumbered file, and in the report strings), and the
`group1`, `group2` arguments actually passed to `calc_DockQ` at line 837. -/
structure PermCall where
  g1 : List String
  g2 : List String
  args_group1 : List String
  args_group2 : List String
deriving DecidableEq

/-- The sequence of pipeline evaluations made by the permutation search:
`combos1` is `itertools.permutations(group1)` when `-perm1` is set and
otherwise `itertools.combinations(group1, len(group1))`, which yields the
single tuple `group1` (lines 790–795); the loops nest `g1` outer, `g2` inner
(lines 815–816); and each iteration calls
`calc_DockQ(model_structure, native_structure, group1, group2, nat_group1,
nat_group2, use_CA_only)` (line 837) — with the enclosing `group1`, `group2`,
not the candidate `g1`, `g2`. -/
def perm_search_calls (group1 group2 : List String) (perm1 perm2 : Bool) :
    List PermCall :=
  let combos1 := if perm1 then pyPermutations group1 else [group1]
  let combos2 := if perm2 then pyPermutations group2 else [group2]
  combos1.flatMap (fun g1 => combos2.map (fun g2 => ⟨g1, g2, group1, group2⟩))

/-- The best-candidate tracking of lines 851–855: strict `>` replacement over
the recorded DockQ values, first-found wins among ties (kept for reference to
lines 851–867; the loop state starts from `best_DockQ = -1`, line 786). -/
def perm_best_track (scores : List (PermCall × ℚ)) : ℚ × Option PermCall :=
  scores.foldl
    (fun best s => if s.2 > best.1 then (s.2, some s.1) else best)
    (-1, none)

/-- C3 (divergence at the failing input): with `-perm1` on chain groups
`[A, B]` and `[C]`, the search enumerates the candidates in the claimed
nested deterministic order — `([A,B],[C])` then `([B,A],[C])` — but every
iteration passes the enclosing `group1 = [A,B]`, `group2 = [C]` to
`calc_DockQ`, so the second candidate is never scored with its own chain
assignment (`args_group1 ≠ g1`), contradicting the claim that each
candidate's assignment is evaluated. -/
theorem c3_perm_search_ignores_candidate :
    perm_search_calls ["A", "B"] ["C"] true false =
      [⟨["A", "B"], ["C"], ["A", "B"], ["C"]⟩,
       ⟨["B", "A"], ["C"], ["A", "B"], ["C"]⟩] ∧
    (perm_search_calls ["A", "B"] ["C"] true false).any
      (fun c => c.args_group1 ≠ c.g1) = true ∧
    (perm_search_calls ["A", "B"] ["C"] true false).all
      (fun c => c.args_group1 = ["A", "B"] ∧ c.args_group2 = ["C"]) = true := by
  decide

/-! ## Structure data model and the contact engine
(source: `get_group_dictionary`, `get_distances_across_chains`,
`group_atom_into_res_distances`, `get_fnat`, `get_interface`,
lines 526–534 and 610–682)

Distances are represented by their squares (see the header note), so every
source comparison `distance < thr` appears here as `sqdistance < thr²`, with
the squared threshold passed where the source passes `thr`. -/

/-- An atom: its name (`atom.id`) and coordinates. -/
structure Atom where
  id : String
  x : ℚ
  y : ℚ
  z : ℚ
deriving DecidableEq

/-- Squared Euclidean distance between two atoms (the source computes
`np.sqrt` of this and only compares the result against thresholds). -/
def sqDist (a b : Atom) : ℚ :=
  (a.x - b.x) ^ 2 + (a.y - b.y) ^ 2 + (a.z - b.z) ^ 2

/-- A residue: its number (`residue.id[1]`) and its atoms in order
(`residue.get_atoms()` / `get_unpacked_list()`). -/
structure Residue where
  resnum : ℤ
  atoms : List Atom
deriving DecidableEq

/-- A placeholder residue (used only as the default of total list indexing;
theorems that rely on indexing carry in-range hypotheses, since Python
raises `IndexError` out of range). -/
def junkRes : Residue := ⟨0, []⟩

/-- A chain: its residues in order. -/
abbrev PdbChain := List Residue

/-- A parsed structure (one Biopython model): chains in file order, keyed by
chain id.  `model[chain]` is embedded as association-list lookup. -/
abbrev PdbModel := List (String × PdbChain)

/-- `model[chain].get_residues()`.  Looking up an absent chain id raises
`KeyError` in Python; the embedding returns `[]` then, and every theorem
below only involves chain ids present in the structure. -/
def chainOf (m : PdbModel) (c : String) : PdbChain :=
  ((m.find? (fun p => p.1 == c)).map (fun p => p.2)).getD []

/-- The residues of a chain group, in chain-then-residue order (the
comprehension `[res for chain in group for res in model[chain].get_residues()]`). -/
def residuesOfGroup (m : PdbModel) (g : List String) : List Residue :=
  g.flatMap (fun c => chainOf m c)

/-- The atoms of a chain group in chain-then-residue-then-atom order
(the comprehension of line 613). -/
def atomsOfGroup (m : PdbModel) (g : List String) : List Atom :=
  (residuesOfGroup m g).flatMap (fun r => r.atoms)

/-- `res["CB"] if "CB" in res else res["CA"]` (lines 616–617).  When neither
atom exists Python raises `KeyError`; the embedding returns a placeholder
atom then, and theorems about this branch assume presence. -/
def repAtom (r : Residue) : Atom :=
  (((r.atoms.find? (fun a => a.id == "CB"))).orElse
    (fun _ => r.atoms.find? (fun a => a.id == "CA"))).getD ⟨"", 0, 0, 0⟩

/-- `get_distances_across_chains(model, group1, group2, all_atom)`
(lines 610–620), with entries squared: the full pairwise matrix between the
two groups' atom lists (all-atom mode) or their per-residue representative
atoms (CB-else-CA mode). -/
def get_distances_across_chains (m : PdbModel) (g1 g2 : List String)
    (all_atom : Bool) : List (List ℚ) :=
  if all_atom then
    (atomsOfGroup m g1).map (fun a => (atomsOfGroup m g2).map (fun b => sqDist a b))
  else
    ((residuesOfGroup m g1).map repAtom).map
      (fun a => ((residuesOfGroup m g2).map repAtom).map (fun b => sqDist a b))

/-- Python dict assignment `d[key] = v`: an existing key keeps its position
and gets the new value; a new key is appended. -/
def pyDictInsert {κ ν : Type} [BEq κ] (d : List (κ × ν)) (k : κ) (v : ν) :
    List (κ × ν) :=
  if d.any (fun p => p.1 == k) then
    d.map (fun p => if p.1 == k then (k, v) else p)
  else d ++ [(k, v)]

/-- `get_group_dictionary(model, group)` (lines 526–533): the dict mapping
`(chain, residue.id[1])` to the residue's atom count, in insertion order. -/
def get_group_dictionary (m : PdbModel) (g : List String) :
    List ((String × ℤ) × ℕ) :=
  (g.flatMap (fun c =>
      (chainOf m c).map (fun r => ((c, r.resnum), r.atoms.length)))).foldl
    (fun d kv => pyDictInsert d kv.1 kv.2) []

/-- `np.min` over a list (squared distances).  `np.min` of an empty slice
raises in numpy; the embedding returns `0` then, and theorems assume every
residue has at least one atom. -/
def npMin : List ℚ → ℚ
  | [] => 0
  | x :: xs => xs.foldl min x

/-- The atom-level submatrix block of rows `[i, i+n)` and columns `[j, j+m)`
(the slice `atom_distances[cum_i:cum_i+i_atoms, cum_j:cum_j+j_atoms]` of
line 631), flattened. -/
def blockSlice (d : List (List ℚ)) (i n j m : ℕ) : List ℚ :=
  (((d.drop i).take n).map (fun row => (row.drop j).take m)).flatten

/-- Inner loop of `group_atom_into_res_distances` (lines 629–632): one row of
the residue matrix, walking `group_dic2` with the running column offset
`cum_j_atoms`. -/
def group_res_row (d : List (List ℚ)) (cum_i i_atoms : ℕ) :
    List ((String × ℤ) × ℕ) → ℕ → List ℚ
  | [], _ => []
  | (_, j_atoms) :: dic2, cum_j =>
      npMin (blockSlice d cum_i i_atoms cum_j j_atoms) ::
        group_res_row d cum_i i_atoms dic2 (cum_j + j_atoms)

/-- Outer loop of `group_atom_into_res_distances` (lines 625–633), walking
`group_dic1` with the running row offset `cum_i_atoms`. -/
def group_res_rows (d : List (List ℚ)) (dic2 : List ((String × ℤ) × ℕ)) :
    List ((String × ℤ) × ℕ) → ℕ → List (List ℚ)
  | [], _ => []
  | (_, i_atoms) :: dic1, cum_i =>
      group_res_row d cum_i i_atoms dic2 0 ::
        group_res_rows d dic2 dic1 (cum_i + i_atoms)

/-- `group_atom_into_res_distances(atom_distances, group_dic1, group_dic2)`
(lines 622–634): reduce the atom-level matrix to a residue-level matrix by
taking the minimum over each residue-pair block. -/
def group_atom_into_res_distances (d : List (List ℚ))
    (dic1 dic2 : List ((String × ℤ) × ℕ)) : List (List ℚ) :=
  group_res_rows d dic2 dic1 0

/-- `np.sum` of a boolean matrix: the number of `true` entries. -/
def countTrue (m : List (List Bool)) : ℕ :=
  (m.map (fun row => (row.filter id).length)).sum

/-- Elementwise conjunction of two boolean matrices
(`model_contacts * native_contacts`, line 654).  numpy requires equal shapes;
theorems carry that hypothesis. -/
def matAnd (a b : List (List Bool)) : List (List Bool) :=
  List.zipWith (fun ra rb => List.zipWith (fun x y => x && y) ra rb) a b

/-- Elementwise `model_contacts * (1 - native_contacts)` (line 655). -/
def matAndNot (a b : List (List Bool)) : List (List Bool) :=
  List.zipWith (fun ra rb => List.zipWith (fun x y => x && !y) ra rb) a b

/-- `get_fnat(model, native, group1, group2, nat_group1, nat_group2, thr)`
(lines 637–656), with `thrSq` the squared threshold: returns
`(n_shared_contacts, n_non_native_contacts, n_native_contacts,
n_model_contacts)`. -/
def get_fnat (model native : PdbModel) (g1 g2 ng1 ng2 : List String)
    (thrSq : ℚ) : ℕ × ℕ × ℕ × ℕ :=
  let model_group_dic1 := get_group_dictionary model g1
  let model_group_dic2 := get_group_dictionary model g2
  let native_group_dic1 := get_group_dictionary native ng1
  let native_group_dic2 := get_group_dictionary native ng2
  let model_atom_distances := get_distances_across_chains model g1 g2 true
  let native_atom_distances := get_distances_across_chains native ng1 ng2 true
  let model_res_distances :=
    group_atom_into_res_distances model_atom_distances model_group_dic1 model_group_dic2
  let native_res_distances :=
    group_atom_into_res_distances native_atom_distances native_group_dic1 native_group_dic2
  let native_contacts := native_res_distances.map (fun row => row.map (fun q => decide (q < thrSq)))
  let model_contacts := model_res_distances.map (fun row => row.map (fun q => decide (q < thrSq)))
  (countTrue (matAnd model_contacts native_contacts),
   countTrue (matAndNot model_contacts native_contacts),
   countTrue native_contacts,
   countTrue model_contacts)

/-- `np.where(res_distances < thr)` paired up (lines 670, 676): the
positions of entries strictly below threshold, in row-major order. -/
def np_where_lt (m : List (List ℚ)) (thr : ℚ) : List (ℕ × ℕ) :=
  m.enum.flatMap (fun ir =>
    (ir.2.enum.filter (fun jq => decide (jq.2 < thr))).map (fun jq => (ir.1, jq.1)))

/-- `get_interface(model_structure, ref_structure, model_group1,
model_group2, ref_group1, ref_group2, thr, all_atom)` (lines 659–682), with
`thrSq` the squared interface threshold: returns
`(model_interface, ref_interface)`.  List indexing out of range raises
`IndexError` in Python; the embedding returns `junkRes` then, and the
claim's hypotheses keep every index in range. -/
def get_interface (model ref : PdbModel) (mg1 mg2 rg1 rg2 : List String)
    (thrSq : ℚ) (all_atom : Bool) : List Residue × List Residue :=
  let atom_distances := get_distances_across_chains ref rg1 rg2 all_atom
  let res_distances :=
    if all_atom then
      group_atom_into_res_distances atom_distances
        (get_group_dictionary ref rg1) (get_group_dictionary ref rg2)
    else atom_distances
  let positive_pairs := np_where_lt res_distances thrSq
  let ref_residues_group1 := residuesOfGroup ref rg1
  let ref_residues_group2 := residuesOfGroup ref rg2
  let model_residues_group1 := residuesOfGroup model mg1
  let model_residues_group2 := residuesOfGroup model mg2
  (positive_pairs.flatMap (fun ij =>
      [model_residues_group1.getD ij.1 junkRes, model_residues_group2.getD ij.2 junkRes]),
   positive_pairs.flatMap (fun ij =>
      [ref_residues_group1.getD ij.1 junkRes, ref_residues_group2.getD ij.2 junkRes]))

/-- A numpy floating value as produced by true division of integer counts:
finite, `nan`, or a signed infinity. -/
inductive NpFloat where
  | fin : ℚ → NpFloat
  | nan : NpFloat
  | inf : NpFloat
  | ninf : NpFloat
deriving DecidableEq

/-- Whether an `NpFloat` is finite. -/
def NpFloat.isFinite : NpFloat → Bool
  | .fin _ => true
  | _ => false

/-- numpy true division of integer scalars (`nat_correct / nat_total`,
lines 214–215): division by zero does not raise — it emits a
`RuntimeWarning` and yields `nan` (for `0/0`) or a signed infinity. -/
def npIntTrueDiv (a b : ℤ) : NpFloat :=
  if b = 0 then (if a = 0 then .nan else if a > 0 then .inf else .ninf)
  else .fin ((a : ℚ) / (b : ℚ))

/-- Lines 213–215 of `calc_DockQ`: the `fnat` and `fnonnat` ratios formed
from the four counts returned by `get_fnat`. -/
def calc_DockQ_fnat_fnonnat (model native : PdbModel)
    (g1 g2 ng1 ng2 : List String) (thrSq : ℚ) : NpFloat × NpFloat :=
  let r := get_fnat model native g1 g2 ng1 ng2 thrSq
  (npIntTrueDiv r.1 r.2.2.1, npIntTrueDiv r.2.1 r.2.2.2)

/-! ## C4: behaviour of the fnat/fnonnat ratios on zero denominators -/

/-- A two-chain model whose two residues coincide (one inter-group contact at
the standard threshold). -/
def c4_closeModel : PdbModel :=
  [("A", [⟨1, [⟨"CA", 0, 0, 0⟩]⟩]), ("B", [⟨1, [⟨"CA", 0, 0, 0⟩]⟩])]

/-- A two-chain structure whose two residues are 100 Å apart (zero
inter-group contacts at the standard threshold). -/
def c4_farNative : PdbModel :=
  [("A", [⟨1, [⟨"CA", 0, 0, 0⟩]⟩]), ("B", [⟨1, [⟨"CA", 100, 0, 0⟩]⟩])]

/-- C4 counterexample: with `c4_farNative` as native the native contact count
is zero, and `calc_DockQ` (lines 213–215) computes `fnat = 0/0 = nan` and
simply continues — the run reports no error for the zero denominator, it
continues with a non-finite value, refuting the claim. -/
theorem c4_counterexample_zero_native_contacts :
    (get_fnat c4_closeModel c4_farNative ["A"] ["B"] ["A"] ["B"] 25).2.2.1 = 0 ∧
    calc_DockQ_fnat_fnonnat c4_closeModel c4_farNative ["A"] ["B"] ["A"] ["B"] 25
      = (NpFloat.nan, NpFloat.fin 1) := by
  have hAB : (("A" : String) == "B") = false := rfl
  have hAA : (("A" : String) == "A") = true := rfl
  have hBB : (("B" : String) == "B") = true := rfl
  norm_num [hAB, hAA, hBB, calc_DockQ_fnat_fnonnat, get_fnat, get_group_dictionary,
    pyDictInsert, get_distances_across_chains, atomsOfGroup, residuesOfGroup, chainOf,
    group_atom_into_res_distances, group_res_rows, group_res_row, blockSlice,
    npMin, sqDist, countTrue, matAnd, matAndNot, npIntTrueDiv,
    List.find?, c4_closeModel, c4_farNative]

/-- C4 as amended: when the native contact count is zero, `fnat` is computed
as a non-finite value (`0/0 = nan`) and the run continues without reporting
an error; likewise `fnonnat` when the model contact count is zero.  The
ratios are not coerced to `0` or `1`, but nothing is reported either. -/
theorem c4_zero_denominator_silently_nonfinite (model native : PdbModel)
    (g1 g2 ng1 ng2 : List String) (thrSq : ℚ) :
    ((get_fnat model native g1 g2 ng1 ng2 thrSq).2.2.1 = 0 →
      ((calc_DockQ_fnat_fnonnat model native g1 g2 ng1 ng2 thrSq).1).isFinite = false) ∧
    ((get_fnat model native g1 g2 ng1 ng2 thrSq).2.2.2 = 0 →
      ((calc_DockQ_fnat_fnonnat model native g1 g2 ng1 ng2 thrSq).2).isFinite = false) := by
  constructor
  · intro h
    simp only [calc_DockQ_fnat_fnonnat, h, npIntTrueDiv, Nat.cast_zero]
    norm_num
    split_ifs <;> rfl
  · intro h
    simp only [calc_DockQ_fnat_fnonnat, h, npIntTrueDiv, Nat.cast_zero]
    norm_num
    split_ifs <;> rfl

/-- Witness for the amended C4, at the concrete structures: zero native
contacts make `fnat` non-finite, and with the structures swapped zero model
contacts make `fnonnat` non-finite. -/
theorem c4_zero_denominator_silently_nonfinite_witness :
    ((calc_DockQ_fnat_fnonnat c4_closeModel c4_farNative ["A"] ["B"] ["A"] ["B"] 25).1).isFinite = false ∧
    ((calc_DockQ_fnat_fnonnat c4_farNative c4_closeModel ["A"] ["B"] ["A"] ["B"] 25).2).isFinite = false := by
  have hAB : (("A" : String) == "B") = false := rfl
  have hAA : (("A" : String) == "A") = true := rfl
  have hBB : (("B" : String) == "B") = true := rfl
  constructor
  · exact (c4_zero_denominator_silently_nonfinite c4_closeModel c4_farNative
      ["A"] ["B"] ["A"] ["B"] 25).1 (by
        norm_num [hAB, hAA, hBB, get_fnat, get_group_dictionary, pyDictInsert,
          get_distances_across_chains, atomsOfGroup, residuesOfGroup, chainOf,
          group_atom_into_res_distances, group_res_rows, group_res_row, blockSlice,
          npMin, sqDist, countTrue, matAnd, matAndNot, List.find?,
          c4_closeModel, c4_farNative])
  · exact (c4_zero_denominator_silently_nonfinite c4_farNative c4_closeModel
      ["A"] ["B"] ["A"] ["B"] 25).2 (by
        norm_num [hAB, hAA, hBB, get_fnat, get_group_dictionary, pyDictInsert,
          get_distances_across_chains, atomsOfGroup, residuesOfGroup, chainOf,
          group_atom_into_res_distances, group_res_rows, group_res_row, blockSlice,
          npMin, sqDist, countTrue, matAnd, matAndNot, List.find?,
          c4_closeModel, c4_farNative])

/-! ## C6: `get_fnat` computes the four contact-set cardinalities -/

/-- The `(chain, residue number)` keys of a chain group, in order.  Python
dict keys are unique; when two residues of a group share `(chain, resnum)`
the source dictionaries silently collapse them and the block decomposition of
`group_atom_into_res_distances` would misalign, so the theorems assume these
keys are distinct (the spec's invariant: residue numbers within a chain are
unique after renumbering). -/
def groupKeys (m : PdbModel) (g : List String) : List (String × ℤ) :=
  g.flatMap (fun c => (chainOf m c).map (fun r => (c, r.resnum)))

/-- The minimum squared inter-atom distance between two residues (the
specification's reduced residue-pair distance). -/
def resMinSqDist (r s : Residue) : ℚ :=
  npMin (r.atoms.flatMap (fun a => s.atoms.map (fun b => sqDist a b)))

lemma pyDictInsert_fresh {κ ν : Type} [BEq κ] (d : List (κ × ν)) (k : κ) (v : ν)
    (h : d.any (fun p => p.1 == k) = false) :
    pyDictInsert d k v = d ++ [(k, v)] := by
  simp [pyDictInsert, h]

lemma foldl_pyDictInsert_nodup {ν : Type} (l acc : List ((String × ℤ) × ν))
    (h : ((acc ++ l).map Prod.fst).Nodup) :
    l.foldl (fun d kv => pyDictInsert d kv.1 kv.2) acc = acc ++ l := by
  induction l generalizing acc with
  | nil => simp
  | cons kv rest ih =>
      have hfresh : acc.any (fun p => p.1 == kv.1) = false := by
        simp only [List.any_eq_false]
        intro p hp
        simp only [List.map_append, List.map_cons] at h
        have := (List.nodup_append.mp h).2.2
        simp only [beq_iff_eq]
        intro hcontra
        exact this (List.mem_map_of_mem Prod.fst hp) (by simp [hcontra])
      rw [List.foldl_cons]
      show List.foldl (fun d kv => pyDictInsert d kv.1 kv.2) (pyDictInsert acc kv.1 kv.2) rest
        = acc ++ kv :: rest
      rw [pyDictInsert_fresh acc kv.1 kv.2 hfresh]
      have : (((acc ++ [kv]) ++ rest).map Prod.fst).Nodup := by
        simpa using h
      rw [ih (acc ++ [kv]) this]
      simp

/-- With distinct keys, the group dictionary is just the per-residue list of
`((chain, resnum), atom count)` in group order. -/
lemma get_group_dictionary_eq (m : PdbModel) (g : List String)
    (h : (groupKeys m g).Nodup) :
    get_group_dictionary m g
      = g.flatMap (fun c => (chainOf m c).map (fun r => ((c, r.resnum), r.atoms.length))) := by
  unfold get_group_dictionary
  have hkeys : ((g.flatMap (fun c => (chainOf m c).map
      (fun r => ((c, r.resnum), r.atoms.length)))).map Prod.fst).Nodup := by
    have : (g.flatMap (fun c => (chainOf m c).map
        (fun r => ((c, r.resnum), r.atoms.length)))).map Prod.fst = groupKeys m g := by
      simp only [groupKeys, List.map_flatMap, List.map_map]
      rfl
    rw [this]; exact h
  have := foldl_pyDictInsert_nodup
    (g.flatMap (fun c => (chainOf m c).map (fun r => ((c, r.resnum), r.atoms.length)))) []
    (by simpa using hkeys)
  simpa using this

/-- The atom counts stored in the group dictionary are the per-residue atom
counts, in residue order. -/
lemma dict_snd_eq (m : PdbModel) (g : List String) (h : (groupKeys m g).Nodup) :
    (get_group_dictionary m g).map Prod.snd
      = (residuesOfGroup m g).map (fun r => r.atoms.length) := by
  rw [get_group_dictionary_eq m g h]
  simp only [residuesOfGroup, List.map_flatMap, List.map_map]
  rfl

/-- One row of the block reduction: walking the second group's dictionary
with the running column offset extracts exactly the per-residue blocks. -/
lemma group_res_row_eq_spec (d : List (List ℚ)) (A X2 : List Atom)
    (f : Atom → Atom → ℚ) (ci ni : ℕ)
    (hA : (d.drop ci).take ni = A.map (fun a => X2.map (f a))) :
    ∀ (dic2 : List ((String × ℤ) × ℕ)) (rs2 : List Residue) (cj : ℕ),
    dic2.map Prod.snd = rs2.map (fun r => r.atoms.length) →
    X2.drop cj = rs2.flatMap (fun r => r.atoms) →
    group_res_row d ci ni dic2 cj
      = rs2.map (fun s => npMin (A.flatMap (fun a => s.atoms.map (f a)))) := by
  intro dic2
  induction dic2 with
  | nil =>
      intro rs2 cj hsz _
      have : rs2 = [] := by
        cases rs2 with
        | nil => rfl
        | cons s t => simp at hsz
      subst this
      simp [group_res_row]
  | cons kv rest ih =>
      intro rs2 cj hsz hX
      cases rs2 with
      | nil => simp at hsz
      | cons s t =>
          simp only [List.map_cons, List.cons.injEq] at hsz
          obtain ⟨hm, hrest⟩ := hsz
          obtain ⟨k, jAtoms⟩ := kv
          simp only at hm
          subst hm
          show npMin (blockSlice d ci ni cj s.atoms.length) ::
              group_res_row d ci ni rest (cj + s.atoms.length)
            = npMin (A.flatMap (fun a => s.atoms.map (f a))) ::
              t.map (fun s => npMin (A.flatMap (fun a => s.atoms.map (f a))))
          congr 1
          · unfold blockSlice
            rw [hA, List.map_map]
            have hrow : ∀ a : Atom,
                (((X2.map (f a)).drop cj).take s.atoms.length) = s.atoms.map (f a) := by
              intro a
              rw [← List.map_drop, hX]
              simp only [List.flatMap_cons]
              rw [← List.map_take, List.take_left]
            have : ((fun row => (row.drop cj).take s.atoms.length) ∘ fun a => X2.map (f a))
                = fun a => s.atoms.map (f a) := by
              funext a
              exact hrow a
            rw [this, List.flatMap_def]
          · apply ih t (cj + s.atoms.length) hrest
            rw [← List.drop_drop, hX]
            simp only [List.flatMap_cons]
            rw [List.drop_left]

/-- The block reduction over both dictionaries yields the matrix of
per-residue-pair block minima. -/
lemma group_res_rows_eq_spec (d : List (List ℚ)) (X2 : List Atom)
    (f : Atom → Atom → ℚ) (dic2 : List ((String × ℤ) × ℕ)) (rs2 : List Residue)
    (hsz2 : dic2.map Prod.snd = rs2.map (fun r => r.atoms.length))
    (hX2 : X2 = rs2.flatMap (fun r => r.atoms)) :
    ∀ (dic1 : List ((String × ℤ) × ℕ)) (rs1 : List Residue) (ci : ℕ),
    dic1.map Prod.snd = rs1.map (fun r => r.atoms.length) →
    d.drop ci = (rs1.flatMap (fun r => r.atoms)).map (fun a => X2.map (f a)) →
    group_res_rows d dic2 dic1 ci
      = rs1.map (fun r => rs2.map (fun s => npMin (r.atoms.flatMap (fun a => s.atoms.map (f a))))) := by
  intro dic1
  induction dic1 with
  | nil =>
      intro rs1 ci hsz _
      have : rs1 = [] := by
        cases rs1 with
        | nil => rfl
        | cons r t => simp at hsz
      subst this
      simp [group_res_rows]
  | cons kv rest ih =>
      intro rs1 ci hsz hd
      cases rs1 with
      | nil => simp at hsz
      | cons r t =>
          simp only [List.map_cons, List.cons.injEq] at hsz
          obtain ⟨hm, hrest⟩ := hsz
          obtain ⟨k, iAtoms⟩ := kv
          simp only at hm
          subst hm
          show group_res_row d ci r.atoms.length dic2 0 ::
              group_res_rows d dic2 rest (ci + r.atoms.length)
            = _ :: _
          congr 1
          · apply group_res_row_eq_spec d r.atoms X2 f ci r.atoms.length ?_ dic2 rs2 0 hsz2
              (by simpa using hX2)
            rw [hd]
            simp only [List.flatMap_cons, List.map_append]
            have hlen : r.atoms.length
                = (r.atoms.map (fun a => X2.map (f a))).length := by simp
            rw [hlen, List.take_left]
          · apply ih t (ci + r.atoms.length) hrest
            rw [← List.drop_drop, hd]
            simp only [List.flatMap_cons, List.map_append]
            have : r.atoms.length = (r.atoms.map (fun a => X2.map (f a))).length := by simp
            rw [this, List.drop_left]

/-- The residue-level distance matrix computed by the source pipeline
(`get_distances_across_chains` in all-atom mode followed by
`group_atom_into_res_distances` over the two group dictionaries) is the
matrix of minimum (squared) inter-atom distances between residue pairs. -/
lemma res_distances_matrix (m : PdbModel) (g1 g2 : List String)
    (h1 : (groupKeys m g1).Nodup) (h2 : (groupKeys m g2).Nodup) :
    group_atom_into_res_distances (get_distances_across_chains m g1 g2 true)
        (get_group_dictionary m g1) (get_group_dictionary m g2)
      = (residuesOfGroup m g1).map
          (fun r => (residuesOfGroup m g2).map (fun s => resMinSqDist r s)) := by
  unfold group_atom_into_res_distances
  have := group_res_rows_eq_spec (get_distances_across_chains m g1 g2 true)
    (atomsOfGroup m g2) sqDist (get_group_dictionary m g2) (residuesOfGroup m g2)
    (dict_snd_eq m g2 h2) (by rfl) (get_group_dictionary m g1) (residuesOfGroup m g1) 0
    (dict_snd_eq m g1 h1) (by simp [get_distances_across_chains, atomsOfGroup])
  rw [this]
  rfl

lemma filter_id_cons_length (x : Bool) (l : List Bool) :
    ((x :: l).filter id).length = (if x = true then 1 else 0) + (l.filter id).length := by
  cases x <;> simp [List.filter, Nat.add_comm]

lemma row_count_op (op : Bool → Bool → Bool) {β β' : Type} (db : β) (db' : β')
    (p : β → Bool) (q : β' → Bool) :
    ∀ (v : List β) (v' : List β'), v.length = v'.length →
    ((List.zipWith op (v.map p) (v'.map q)).filter id).length
      = ∑ j ∈ Finset.range v.length,
          if op (p (v.getD j db)) (q (v'.getD j db')) = true then 1 else 0 := by
  intro v
  induction v with
  | nil => intro v' hv; simp
  | cons b vt ih =>
      intro v' hv
      cases v' with
      | nil => simp at hv
      | cons b' vt' =>
          simp only [List.length_cons, Nat.add_right_cancel_iff] at hv
          simp only [List.map_cons, List.zipWith_cons_cons, List.length_cons]
          rw [filter_id_cons_length, ih vt' hv, Finset.sum_range_succ']
          simp [Nat.add_comm]

lemma mat_count_op (op : Bool → Bool → Bool) {α α' β β' : Type}
    (da : α) (da' : α') (db : β) (db' : β')
    (p : α → β → Bool) (q : α' → β' → Bool) (v : List β) (v' : List β')
    (hv : v.length = v'.length) :
    ∀ (u : List α) (u' : List α'), u.length = u'.length →
    countTrue (List.zipWith (fun ra rb => List.zipWith op ra rb)
        (u.map (fun a => v.map (p a))) (u'.map (fun a' => v'.map (q a'))))
      = ((Finset.range u.length ×ˢ Finset.range v.length).filter
          (fun ij => op (p (u.getD ij.1 da) (v.getD ij.2 db))
                        (q (u'.getD ij.1 da') (v'.getD ij.2 db')) = true)).card := by
  intro u
  induction u with
  | nil => intro u' hu; simp [countTrue]
  | cons a ut ih =>
      intro u' hu
      cases u' with
      | nil => simp at hu
      | cons a' ut' =>
          simp only [List.length_cons, Nat.add_right_cancel_iff] at hu
          simp only [List.map_cons, List.zipWith_cons_cons]
          have hcount : countTrue ((List.zipWith op (v.map (p a)) (v'.map (q a'))) ::
              List.zipWith (fun ra rb => List.zipWith op ra rb)
                (ut.map (fun x => v.map (p x))) (ut'.map (fun x => v'.map (q x))))
            = ((List.zipWith op (v.map (p a)) (v'.map (q a'))).filter id).length
              + countTrue (List.zipWith (fun ra rb => List.zipWith op ra rb)
                  (ut.map (fun x => v.map (p x))) (ut'.map (fun x => v'.map (q x)))) := by
            simp [countTrue]
          rw [hcount, ih ut' hu, row_count_op op db db' (p a) (q a') v v' hv]
          rw [Finset.card_filter, Finset.card_filter, Finset.sum_product, Finset.sum_product]
          simp only [List.length_cons]
          rw [Finset.sum_range_succ']
          simp only [List.getD_cons_zero, List.getD_cons_succ]
          ring

lemma row_count_single {β : Type} (db : β) (p : β → Bool) (v : List β) :
    ((v.map p).filter id).length
      = ∑ j ∈ Finset.range v.length, if p (v.getD j db) = true then 1 else 0 := by
  induction v with
  | nil => simp
  | cons b vt ih =>
      simp only [List.map_cons, List.length_cons]
      rw [filter_id_cons_length, ih, Finset.sum_range_succ']
      simp only [List.getD_cons_zero, List.getD_cons_succ]
      ring

lemma mat_count_single {α β : Type} (da : α) (db : β) (p : α → β → Bool) (v : List β) :
    ∀ u : List α,
    countTrue (u.map (fun a => v.map (p a)))
      = ((Finset.range u.length ×ˢ Finset.range v.length).filter
          (fun ij => p (u.getD ij.1 da) (v.getD ij.2 db) = true)).card := by
  intro u
  induction u with
  | nil => simp [countTrue]
  | cons a ut ih =>
      simp only [List.map_cons]
      have hcount : countTrue ((v.map (p a)) :: ut.map (fun x => v.map (p x)))
          = ((v.map (p a)).filter id).length + countTrue (ut.map (fun x => v.map (p x))) := by
        simp [countTrue]
      rw [hcount, ih, row_count_single db (p a) v]
      rw [Finset.card_filter, Finset.card_filter, Finset.sum_product, Finset.sum_product]
      simp only [List.length_cons]
      rw [Finset.sum_range_succ']
      simp only [List.getD_cons_zero, List.getD_cons_succ]
      ring

lemma filter_decide_eq (s : Finset (ℕ × ℕ)) (P : ℕ × ℕ → Prop) [DecidablePred P] :
    (s.filter fun ij => decide (P ij) = true) = s.filter P := by
  ext a; simp

lemma filter_decide_and (s : Finset (ℕ × ℕ)) (P Q : ℕ × ℕ → Prop)
    [DecidablePred P] [DecidablePred Q] :
    (s.filter fun ij => (decide (P ij) && decide (Q ij)) = true)
      = s.filter P ∩ s.filter Q := by
  ext a; simp [Finset.mem_filter]; tauto

lemma filter_decide_andnot (s : Finset (ℕ × ℕ)) (P Q : ℕ × ℕ → Prop)
    [DecidablePred P] [DecidablePred Q] :
    (s.filter fun ij => (decide (P ij) && !decide (Q ij)) = true)
      = s.filter P \ s.filter Q := by
  ext a; simp [Finset.mem_filter]; tauto

/-- The contact set of a structure's two chain groups: the index pairs whose
residues' minimum (squared) inter-atom distance is strictly below the
(squared) threshold — the specification's notion of contact. -/
def contact_set (m : PdbModel) (g1 g2 : List String) (thrSq : ℚ) : Finset (ℕ × ℕ) :=
  (Finset.range (residuesOfGroup m g1).length
      ×ˢ Finset.range (residuesOfGroup m g2).length).filter
    (fun ij => resMinSqDist ((residuesOfGroup m g1).getD ij.1 junkRes)
                            ((residuesOfGroup m g2).getD ij.2 junkRes) < thrSq)

/-- `get_fnat` returns exactly the four cardinalities
`(|model ∩ native|, |model \ native|, |native|, |model|)` of the contact
sets, under the distinct-key and shape hypotheses that real inputs satisfy. -/
lemma get_fnat_counts (model native : PdbModel) (g1 g2 ng1 ng2 : List String)
    (thrSq : ℚ)
    (hk1 : (groupKeys model g1).Nodup) (hk2 : (groupKeys model g2).Nodup)
    (hk3 : (groupKeys native ng1).Nodup) (hk4 : (groupKeys native ng2).Nodup)
    (hlen1 : (residuesOfGroup model g1).length = (residuesOfGroup native ng1).length)
    (hlen2 : (residuesOfGroup model g2).length = (residuesOfGroup native ng2).length) :
    get_fnat model native g1 g2 ng1 ng2 thrSq
      = ((contact_set model g1 g2 thrSq ∩ contact_set native ng1 ng2 thrSq).card,
         (contact_set model g1 g2 thrSq \ contact_set native ng1 ng2 thrSq).card,
         (contact_set native ng1 ng2 thrSq).card,
         (contact_set model g1 g2 thrSq).card) := by
  have hm := res_distances_matrix model g1 g2 hk1 hk2
  have hn := res_distances_matrix native ng1 ng2 hk3 hk4
  simp only [get_fnat, hm, hn, matAnd, matAndNot, List.map_map]
  have hfuse : ∀ (rs2 : List Residue),
      ((fun row => row.map (fun q => decide (q < thrSq))) ∘
          (fun r => rs2.map (fun s => resMinSqDist r s)))
        = fun r => rs2.map (fun s => decide (resMinSqDist r s < thrSq)) := by
    intro rs2
    funext r
    simp [List.map_map]
  rw [hfuse (residuesOfGroup model g2), hfuse (residuesOfGroup native ng2)]
  simp only [Prod.mk.injEq]
  refine ⟨?_, ?_, ?_, ?_⟩
  · rw [mat_count_op (fun x y => x && y) junkRes junkRes junkRes junkRes
        (fun r s => decide (resMinSqDist r s < thrSq))
        (fun r s => decide (resMinSqDist r s < thrSq))
        (residuesOfGroup model g2) (residuesOfGroup native ng2) hlen2
        (residuesOfGroup model g1) (residuesOfGroup native ng1) hlen1]
    unfold contact_set
    rw [← hlen1, ← hlen2]
    exact congrArg Finset.card (filter_decide_and _ _ _)
  · rw [mat_count_op (fun x y => x && !y) junkRes junkRes junkRes junkRes
        (fun r s => decide (resMinSqDist r s < thrSq))
        (fun r s => decide (resMinSqDist r s < thrSq))
        (residuesOfGroup model g2) (residuesOfGroup native ng2) hlen2
        (residuesOfGroup model g1) (residuesOfGroup native ng1) hlen1]
    unfold contact_set
    rw [← hlen1, ← hlen2]
    exact congrArg Finset.card (filter_decide_andnot _ _ _)
  · rw [mat_count_single junkRes junkRes
        (fun r s => decide (resMinSqDist r s < thrSq)) (residuesOfGroup native ng2)
        (residuesOfGroup native ng1)]
    unfold contact_set
    exact congrArg Finset.card (filter_decide_eq _ _)
  · rw [mat_count_single junkRes junkRes
        (fun r s => decide (resMinSqDist r s < thrSq)) (residuesOfGroup model g2)
        (residuesOfGroup model g1)]
    unfold contact_set
    exact congrArg Finset.card (filter_decide_eq _ _)

/-- C6: `get_fnat` classifies a residue pair as a contact iff its minimum
inter-atom distance is strictly below the threshold and returns exactly
`(|model ∩ native|, |model \ native|, |native|, |model|)`; consequently an
input with 10 native contacts, 8 of them reproduced, and 9 model contacts
yields `fnat = 8/10 = 0.8` and `fnonnat = 1/9` at lines 214–215. -/
theorem c6_get_fnat_contact_counts (model native : PdbModel)
    (g1 g2 ng1 ng2 : List String) (thrSq : ℚ)
    (hk1 : (groupKeys model g1).Nodup) (hk2 : (groupKeys model g2).Nodup)
    (hk3 : (groupKeys native ng1).Nodup) (hk4 : (groupKeys native ng2).Nodup)
    (hlen1 : (residuesOfGroup model g1).length = (residuesOfGroup native ng1).length)
    (hlen2 : (residuesOfGroup model g2).length = (residuesOfGroup native ng2).length) :
    get_fnat model native g1 g2 ng1 ng2 thrSq
      = ((contact_set model g1 g2 thrSq ∩ contact_set native ng1 ng2 thrSq).card,
         (contact_set model g1 g2 thrSq \ contact_set native ng1 ng2 thrSq).card,
         (contact_set native ng1 ng2 thrSq).card,
         (contact_set model g1 g2 thrSq).card) ∧
    ((contact_set native ng1 ng2 thrSq).card = 10 →
     (contact_set model g1 g2 thrSq ∩ contact_set native ng1 ng2 thrSq).card = 8 →
     (contact_set model g1 g2 thrSq).card = 9 →
      calc_DockQ_fnat_fnonnat model native g1 g2 ng1 ng2 thrSq
        = (NpFloat.fin (8 / 10), NpFloat.fin (1 / 9))) := by
  have hc :=
    get_fnat_counts model native g1 g2 ng1 ng2 thrSq hk1 hk2 hk3 hk4 hlen1 hlen2
  refine ⟨hc, ?_⟩
  intro h10 h8 h9
  have hsd : (contact_set model g1 g2 thrSq \ contact_set native ng1 ng2 thrSq).card = 1 := by
    have := Finset.card_sdiff_add_card_inter (contact_set model g1 g2 thrSq)
      (contact_set native ng1 ng2 thrSq)
    omega
  simp only [calc_DockQ_fnat_fnonnat, hc, h10, h8, h9, hsd]
  norm_num [npIntTrueDiv]

/-- A one-atom residue at `(x, 0, 0)`. -/
def mkRes (n : ℤ) (x : ℚ) : Residue := ⟨n, [⟨"CA", x, 0, 0⟩]⟩

/-- Witness native structure: group 1 has 11 residues, the first ten in
contact with group 2's single residue, the eleventh 100 Å away — 10 native
contacts. -/
def c6_native : PdbModel :=
  [("A", [mkRes 1 0, mkRes 2 0, mkRes 3 0, mkRes 4 0, mkRes 5 0, mkRes 6 0,
          mkRes 7 0, mkRes 8 0, mkRes 9 0, mkRes 10 0, mkRes 11 100]),
   ("B", [mkRes 1 0])]

/-- Witness model structure: reproduces 8 of the 10 native contacts and adds
one spurious contact (residue 11), for 9 model contacts. -/
def c6_model : PdbModel :=
  [("A", [mkRes 1 0, mkRes 2 0, mkRes 3 0, mkRes 4 0, mkRes 5 0, mkRes 6 0,
          mkRes 7 0, mkRes 8 0, mkRes 9 100, mkRes 10 100, mkRes 11 0]),
   ("B", [mkRes 1 0])]

/-- Witness for C6: on the 10-native / 8-shared / 9-model input the computed
ratios are `fnat = 8/10` and `fnonnat = 1/9`, via the theorem. -/
theorem c6_get_fnat_contact_counts_witness :
    calc_DockQ_fnat_fnonnat c6_model c6_native ["A"] ["B"] ["A"] ["B"] 25
      = (NpFloat.fin (8 / 10), NpFloat.fin (1 / 9)) := by
  have hAB : (("A" : String) == "B") = false := rfl
  have hAA : (("A" : String) == "A") = true := rfl
  have hBB : (("B" : String) == "B") = true := rfl
  have hfnat : get_fnat c6_model c6_native ["A"] ["B"] ["A"] ["B"] 25 = (8, 1, 10, 9) := by
    norm_num [hAB, hAA, hBB, get_fnat, get_group_dictionary, pyDictInsert,
      get_distances_across_chains, atomsOfGroup, residuesOfGroup, chainOf,
      group_atom_into_res_distances, group_res_rows, group_res_row, blockSlice,
      npMin, sqDist, countTrue, matAnd, matAndNot, List.find?, c6_model, c6_native, mkRes]
  have h := c6_get_fnat_contact_counts c6_model c6_native ["A"] ["B"] ["A"] ["B"] 25
    (by decide) (by decide) (by decide) (by decide) (by decide) (by decide)
  have hcounts := h.1
  rw [hfnat] at hcounts
  simp only [Prod.mk.injEq] at hcounts
  obtain ⟨e1, e2, e3, e4⟩ := hcounts
  exact h.2 e3.symm e1.symm e4.symm

/-! ## C10: `get_interface` positional correspondence -/

/-- The native residue-pair distance used by the interface extractor: the
minimum (squared) inter-atom distance in all-atom mode, the (squared)
representative-atom (CB else CA) distance otherwise. -/
def refResDistSq (all_atom : Bool) (r s : Residue) : ℚ :=
  if all_atom then resMinSqDist r s else sqDist (repAtom r) (repAtom s)

/-- The positive pairs of the interface extraction, as the specification
describes them: the index pairs `(i, j)` whose native residue-pair distance
is strictly below the (squared) interface threshold, enumerated in row-major
order (`i` ascending, then `j`) with no re-sorting. -/
def interface_pairs (ref : PdbModel) (rg1 rg2 : List String) (thrSq : ℚ)
    (all_atom : Bool) : List (ℕ × ℕ) :=
  (residuesOfGroup ref rg1).enum.flatMap (fun ir =>
    ((residuesOfGroup ref rg2).enum.filter
        (fun js => decide (refResDistSq all_atom ir.2 js.2 < thrSq))).map
      (fun js => (ir.1, js.1)))

/-- `np.where` over a matrix given row-by-row as a double map enumerates
exactly the index pairs satisfying the threshold predicate, in row-major
order. -/
lemma np_where_lt_map_matrix {α β : Type} (u : List α) (v : List β)
    (f : α → β → ℚ) (thr : ℚ) :
    np_where_lt (u.map (fun a => v.map (f a))) thr
      = u.enum.flatMap (fun ir =>
          (v.enum.filter (fun js => decide (f ir.2 js.2 < thr))).map
            (fun js => (ir.1, js.1))) := by
  unfold np_where_lt
  rw [List.enum_map, List.flatMap_map]
  congr 1
  funext ir
  show ((v.map (f ir.2)).enum.filter (fun jq => decide (jq.2 < thr))).map
      (fun jq => (ir.1, jq.1)) = _
  rw [List.enum_map, List.filter_map, List.map_map]
  rfl

/-- C10: `get_interface` returns native- and model-interface lists of equal
length whose entries correspond positionally: both lists are built from the
same positive-pair sequence — the row-major enumeration of native
residue-distance entries strictly below the threshold, never re-sorted —
with the i-th native-group and model-group residues taken at the same
positional indices.  The hypotheses: distinct group-dictionary keys in
all-atom mode, and the claim's own premise that the model group lists have a
residue at every positive-pair index (Python would raise `IndexError`
otherwise). -/
theorem c10_get_interface_positional_correspondence
    (model ref : PdbModel) (mg1 mg2 rg1 rg2 : List String) (thrSq : ℚ) (all_atom : Bool)
    (hk1 : all_atom = true → (groupKeys ref rg1).Nodup)
    (hk2 : all_atom = true → (groupKeys ref rg2).Nodup)
    (hrange : ∀ ij ∈ interface_pairs ref rg1 rg2 thrSq all_atom,
        ij.1 < (residuesOfGroup model mg1).length ∧
        ij.2 < (residuesOfGroup model mg2).length) :
    ((get_interface model ref mg1 mg2 rg1 rg2 thrSq all_atom).1.length
       = (get_interface model ref mg1 mg2 rg1 rg2 thrSq all_atom).2.length) ∧
    (get_interface model ref mg1 mg2 rg1 rg2 thrSq all_atom).2
      = (interface_pairs ref rg1 rg2 thrSq all_atom).flatMap (fun ij =>
          [(residuesOfGroup ref rg1).getD ij.1 junkRes,
           (residuesOfGroup ref rg2).getD ij.2 junkRes]) ∧
    (get_interface model ref mg1 mg2 rg1 rg2 thrSq all_atom).1
      = (interface_pairs ref rg1 rg2 thrSq all_atom).flatMap (fun ij =>
          [(residuesOfGroup model mg1).getD ij.1 junkRes,
           (residuesOfGroup model mg2).getD ij.2 junkRes]) := by
  have hpairs : np_where_lt
      (if all_atom then
        group_atom_into_res_distances (get_distances_across_chains ref rg1 rg2 all_atom)
          (get_group_dictionary ref rg1) (get_group_dictionary ref rg2)
      else get_distances_across_chains ref rg1 rg2 all_atom) thrSq
      = interface_pairs ref rg1 rg2 thrSq all_atom := by
    cases all_atom with
    | true =>
        simp only [if_true]
        rw [res_distances_matrix ref rg1 rg2 (hk1 rfl) (hk2 rfl),
            np_where_lt_map_matrix]
        simp [interface_pairs, refResDistSq]
    | false =>
        simp only [Bool.false_eq_true, if_false]
        unfold get_distances_across_chains
        simp only [Bool.false_eq_true, if_false]
        have hfu : ((residuesOfGroup ref rg1).map repAtom).map
              (fun a => ((residuesOfGroup ref rg2).map repAtom).map (fun b => sqDist a b))
            = (residuesOfGroup ref rg1).map
                (fun r => (residuesOfGroup ref rg2).map
                  (fun s => sqDist (repAtom r) (repAtom s))) := by
          rw [List.map_map]
          congr 1
          funext r
          show ((residuesOfGroup ref rg2).map repAtom).map (fun b => sqDist (repAtom r) b) = _
          rw [List.map_map]
          rfl
        rw [hfu, np_where_lt_map_matrix]
        simp [interface_pairs, refResDistSq]
  simp only [get_interface]
  rw [hpairs]
  refine ⟨?_, rfl, rfl⟩
  rw [List.length_flatMap, List.length_flatMap]
  have hconst : ∀ (f g : ℕ × ℕ → Residue),
      (List.length ∘ fun ij => [f ij, g ij]) = fun ij : ℕ × ℕ => 2 := by
    intro f g
    funext ij
    rfl
  rw [hconst, hconst]

/-- Witness for C10 at a concrete one-contact input: the two interface lists
are index-aligned images of the single positive pair `(0, 0)`. -/
theorem c10_get_interface_positional_correspondence_witness :
    (get_interface c4_closeModel c4_closeModel ["A"] ["B"] ["A"] ["B"] 25 true).1.length
      = (get_interface c4_closeModel c4_closeModel ["A"] ["B"] ["A"] ["B"] 25 true).2.length ∧
    (get_interface c4_closeModel c4_closeModel ["A"] ["B"] ["A"] ["B"] 25 true).2
      = (interface_pairs c4_closeModel ["A"] ["B"] 25 true).flatMap (fun ij =>
          [(residuesOfGroup c4_closeModel ["A"]).getD ij.1 junkRes,
           (residuesOfGroup c4_closeModel ["B"]).getD ij.2 junkRes]) ∧
    (get_interface c4_closeModel c4_closeModel ["A"] ["B"] ["A"] ["B"] 25 true).1
      = (interface_pairs c4_closeModel ["A"] ["B"] 25 true).flatMap (fun ij =>
          [(residuesOfGroup c4_closeModel ["A"]).getD ij.1 junkRes,
           (residuesOfGroup c4_closeModel ["B"]).getD ij.2 junkRes]) := by
  have hAB : (("A" : String) == "B") = false := rfl
  have hAA : (("A" : String) == "A") = true := rfl
  have hBB : (("B" : String) == "B") = true := rfl
  have hpp : interface_pairs c4_closeModel ["A"] ["B"] 25 true = [(0, 0)] := by
    norm_num [hAB, hAA, hBB, interface_pairs, refResDistSq, resMinSqDist,
      residuesOfGroup, chainOf, npMin, sqDist, List.find?, c4_closeModel,
      List.enum, List.enumFrom]
  exact c10_get_interface_positional_correspondence c4_closeModel c4_closeModel
    ["A"] ["B"] ["A"] ["B"] 25 true
    (fun _ => by decide) (fun _ => by decide)
    (by
      rw [hpp]
      intro ij hij
      simp only [List.mem_singleton] at hij
      subst hij
      exact ⟨by decide, by decide⟩)

/-! ## Alignment mapper (source lines 536–607) -/

/-- A pairwise-alignment result as the sequence-alignment collaborator
(`pairwise2.align.localms`, line 589) returns it: two equal-length gapped
strings covering the two input sequences. -/
structure PairAlignment where
  seqA : List Char
  seqB : List Char
deriving DecidableEq

/-- The gap symbol of the alignment strings. -/
def gapChar : Char := Char.ofNat 45

/-- A gapped string with its gap symbols removed. -/
def degap (s : List Char) : List Char := s.filter (fun c => decide (c ≠ gapChar))

/-- Modelled from the spec: the structural guarantee of the Sequence
Alignment Provider interface — the returned strings have equal length, their
gap-free projections are the two input sequences, and no column is a gap in
both strings. -/
def ValidAlignment (modelSeq nativeSeq : List Char) (aln : PairAlignment) : Prop :=
  aln.seqA.length = aln.seqB.length ∧
  degap aln.seqA = modelSeq ∧
  degap aln.seqB = nativeSeq ∧
  ∀ ab ∈ aln.seqA.zip aln.seqB, ¬(ab.1 = gapChar ∧ ab.2 = gapChar)

/-- `np.where(sequence_aligned != "-")[0]` (lines 595–596): the column
indices at which a gapped string has a residue. -/
def nongapIdx (s : List Char) : List ℕ :=
  (s.enum.filter (fun ic => decide (ic.2 ≠ gapChar))).map (fun ic => ic.1)

/-- `np.sum((model != "-") & (native != "-"))` (lines 597–599): the number
of columns aligned in both strings. -/
def alignment_length (sA sB : List Char) : ℕ :=
  ((sA.zip sB).filter (fun ab => decide (ab.1 ≠ gapChar ∧ ab.2 ≠ gapChar))).length

/-- numpy fancy-index assignment `arr[positions] = values`, position by
position (out-of-range positions cannot occur here; see the theorems). -/
def npArrayAssign (arr : List ℤ) (positions : List ℕ) (values : List ℤ) : List ℤ :=
  (positions.zip values).foldl (fun a pv => a.set pv.1 pv.2) arr

/-- The numbering derivation of `align_sequence_features` (lines 592–607),
as a function of the alignment strings the collaborator returned:
`aligned_numbering = np.zeros(len(model_indexes)) - 1` followed by
`aligned_numbering[native_indexes[:alignment_length]] =
native_numbering[model_indexes[:alignment_length]]`.  Out-of-range reads of
`native_numbering` are embedded with a default (they are impossible: the
first `alignment_length` model-side column indices never reach the native
length). -/
def align_sequence_features_from (sA sB : List Char) (native_numbering : List ℤ) : List ℤ :=
  let model_indexes := nongapIdx sA
  let native_indexes := nongapIdx sB
  let aln_len := alignment_length sA sB
  let aligned := List.replicate model_indexes.length (-1 : ℤ)
  npArrayAssign aligned (native_indexes.take aln_len)
    ((model_indexes.take aln_len).map (fun i => native_numbering.getD i 0))

/-- Modelled from the spec: the mapping the specification describes — for
every model position (in column order), the native residue number the
position aligns to, or the sentinel `-1` when it aligns to a gap in the
native string; the walk keeps the running native rank. -/
def spec_aligned_walk (numbering : List ℤ) : List (Char × Char) → ℕ → List ℤ
  | [], _ => []
  | ab :: rest, nrank =>
      if ab.1 = gapChar then spec_aligned_walk numbering rest (nrank + 1)
      else if ab.2 = gapChar then (-1) :: spec_aligned_walk numbering rest nrank
      else numbering.getD nrank (-1) :: spec_aligned_walk numbering rest (nrank + 1)

/-- Modelled from the spec: the specified aligned-numbering array (see
`spec_aligned_walk`). -/
def spec_aligned_numbering (sA sB : List Char) (numbering : List ℤ) : List ℤ :=
  spec_aligned_walk numbering (sA.zip sB) 0

/-- C8 failing input, model sequence. -/
def c8_model_seq : List Char := "AAACCCCCXXXXXXGGGG".toList

/-- C8 failing input, native sequence. -/
def c8_native_seq : List Char := "AAABBBBCCCCCGGGG".toList

/-- The unique optimal local alignment of the C8 failing input under
match 5 / mismatch 0 / open −10 / extend −1: skipping `BBBB` costs 13 and
skipping `XXXXXX` costs 15, and the 12 matches they enable score
`60 − 28 = 32`, strictly above every alternative (the best gapless
alignment scores 30, the best single-gap alignments 29; an affine-gap
local-alignment dynamic program confirms 32 is optimal and this alignment
its only traceback). -/
def c8_aln : PairAlignment :=
  ⟨"AAA----CCCCCXXXXXXGGGG".toList, "AAABBBBCCCCC------GGGG".toList⟩

/-- C8 failing input, native numbering. -/
def c8_numbering : List ℤ :=
  [1, 2, 3, 4, 5, 6, 7, 8, 9, 10, 11, 12, 13, 14, 15, 16]

/-- C8: on the exhibited optimal mixed-gap alignment the derivation of
`align_sequence_features` does not compute the specified mapping: array
positions are taken from native-side column indices and values are indexed
by model-side column indices (lines 601–605 transpose the two roles), so
model positions 8–13 (the unmatched `X` residues) receive native numbers
13–16 and `-1` although the specification requires `-1` for all six, and
positions 14–17 (the aligned `G` residues) receive `-1` and stale numbers
instead of 13–16. -/
theorem c8_alignment_numbering_transposed :
    ValidAlignment c8_model_seq c8_native_seq c8_aln ∧
    align_sequence_features_from c8_aln.seqA c8_aln.seqB c8_numbering
      = [1, 2, 3, 8, 9, 10, 11, 12, 13, 14, 15, 16, -1, -1, -1, -1, -1, -1] ∧
    spec_aligned_numbering c8_aln.seqA c8_aln.seqB c8_numbering
      = [1, 2, 3, 8, 9, 10, 11, 12, -1, -1, -1, -1, -1, -1, 13, 14, 15, 16] ∧
    align_sequence_features_from c8_aln.seqA c8_aln.seqB c8_numbering
      ≠ spec_aligned_numbering c8_aln.seqA c8_aln.seqB c8_numbering := by
  refine ⟨⟨by decide, by decide, by decide, by decide⟩, by decide, by decide, by decide⟩

/-- Affine-gap column scoring of an aligned region under the source's
parameters (match 5, mismatch 0, gap open −10, gap extend −1); the state
records whether the previous column was a gap and in which string. -/
def colScoreAux : Option Bool → List (Char × Char) → ℤ
  | _, [] => 0
  | st, ab :: rest =>
      if ab.1 = gapChar then
        (if st = some true then -1 else -10) + colScoreAux (some true) rest
      else if ab.2 = gapChar then
        (if st = some false then -1 else -10) + colScoreAux (some false) rest
      else (if ab.1 = ab.2 then 5 else 0) + colScoreAux none rest

/-- The score of the aligned region of `n` columns starting at column `s`
(a local alignment leaves its flanks unscored). -/
def regionScore (aln : PairAlignment) (s n : ℕ) : ℤ :=
  colScoreAux none (((aln.seqA.zip aln.seqB).drop s).take n)

/-- The number of match columns (equal residues, no gap). -/
def eqCols (cs : List (Char × Char)) : ℕ :=
  cs.countP (fun ab => decide (ab.1 ≠ gapChar ∧ ab.1 = ab.2))

/-- The number of columns carrying a model-string residue. -/
def nongapACols (cs : List (Char × Char)) : ℕ :=
  cs.countP (fun ab => decide (ab.1 ≠ gapChar))

/-- The number of columns carrying a native-string residue. -/
def nongapBCols (cs : List (Char × Char)) : ℕ :=
  cs.countP (fun ab => decide (ab.2 ≠ gapChar))

lemma colScoreAux_le (cs : List (Char × Char)) :
    ∀ st, colScoreAux st cs ≤ 5 * eqCols cs := by
  induction cs with
  | nil => intro st; simp [colScoreAux, eqCols]
  | cons ab rest ih =>
      intro st
      unfold colScoreAux eqCols
      rw [List.countP_cons]
      have hr1 := ih (some true)
      have hr2 := ih (some false)
      have hr3 := ih none
      unfold eqCols at hr1 hr2 hr3
      split_ifs with h1 h2 h3 h4 h5 h6 h7 <;> simp_all <;> omega

lemma colScoreAux_eq_cons (hd : Char × Char) (rest : List (Char × Char))
    (st : Option Bool)
    (heq : colScoreAux st (hd :: rest) = 5 * eqCols (hd :: rest)) :
    (hd.1 ≠ gapChar ∧ hd.2 ≠ gapChar) ∧ colScoreAux none rest = 5 * eqCols rest := by
  unfold colScoreAux eqCols at heq
  rw [List.countP_cons] at heq
  by_cases h1 : hd.1 = gapChar
  · exfalso
    rw [if_pos h1] at heq
    have hpred : (decide (hd.1 ≠ gapChar ∧ hd.1 = hd.2)) = false := by
      simp [h1]
    rw [hpred] at heq
    have hle := colScoreAux_le rest (some true)
    unfold eqCols at hle
    split_ifs at heq <;> omega
  · by_cases h2 : hd.2 = gapChar
    · exfalso
      rw [if_neg h1, if_pos h2] at heq
      have hpred : (decide (hd.1 ≠ gapChar ∧ hd.1 = hd.2)) = false := by
        have : hd.1 ≠ hd.2 := by
          intro hc; exact h1 (hc.trans h2)
        simp [this]
      rw [hpred] at heq
      have hle := colScoreAux_le rest (some false)
      unfold eqCols at hle
      split_ifs at heq <;> omega
    · refine ⟨⟨h1, h2⟩, ?_⟩
      rw [if_neg h1, if_neg h2] at heq
      have hle := colScoreAux_le rest none
      unfold eqCols at hle ⊢
      by_cases h3 : hd.1 = hd.2
      · have hpred : (decide (hd.1 ≠ gapChar ∧ hd.1 = hd.2)) = true := by
          simp only [decide_eq_true_eq]
          exact ⟨h1, h3⟩
        rw [hpred, if_pos h3] at heq
        simp only [eq_self_iff_true, if_true] at heq
        omega
      · have hpred : (decide (hd.1 ≠ gapChar ∧ hd.1 = hd.2)) = false := by
          simp only [decide_eq_false_iff_not]
          intro hc
          exact h3 hc.2
        rw [hpred, if_neg h3] at heq
        simp only [Bool.false_eq_true, if_false] at heq
        omega

lemma colScoreAux_eq_gapless (cs : List (Char × Char)) :
    ∀ st, colScoreAux st cs = 5 * eqCols cs →
    ∀ ab ∈ cs, ab.1 ≠ gapChar ∧ ab.2 ≠ gapChar := by
  induction cs with
  | nil => intro st _ ab hab; simp at hab
  | cons hd rest ih =>
      intro st heq ab hab
      obtain ⟨hhd, hrest⟩ := colScoreAux_eq_cons hd rest st heq
      rcases List.mem_cons.mp hab with hab | hab
      · subst hab; exact hhd
      · exact ih none hrest ab hab

lemma countP_zip_fst (p : Char → Bool) :
    ∀ (sA sB : List Char), sA.length = sB.length →
    (sA.zip sB).countP (fun ab => p ab.1) = sA.countP p := by
  intro sA
  induction sA with
  | nil => intro sB h; simp
  | cons a ta ih =>
      intro sB h
      cases sB with
      | nil => simp at h
      | cons b tb =>
          simp only [List.length_cons, Nat.add_right_cancel_iff] at h
          simp only [List.zip_cons_cons, List.countP_cons, ih tb h]

lemma countP_zip_snd (p : Char → Bool) :
    ∀ (sA sB : List Char), sA.length = sB.length →
    (sA.zip sB).countP (fun ab => p ab.2) = sB.countP p := by
  intro sA
  induction sA with
  | nil =>
      intro sB h
      have : sB = [] := by
        cases sB with
        | nil => rfl
        | cons b tb => simp at h
      subst this; simp
  | cons a ta ih =>
      intro sB h
      cases sB with
      | nil => simp at h
      | cons b tb =>
          simp only [List.length_cons, Nat.add_right_cancel_iff] at h
          simp only [List.zip_cons_cons, List.countP_cons, ih tb h]

lemma zip_all_eq :
    ∀ (sA sB : List Char), sA.length = sB.length →
    (∀ ab ∈ sA.zip sB, ab.1 = ab.2) → sA = sB := by
  intro sA
  induction sA with
  | nil =>
      intro sB h _
      cases sB with
      | nil => rfl
      | cons b tb => simp at h
  | cons a ta ih =>
      intro sB h hall
      cases sB with
      | nil => simp at h
      | cons b tb =>
          simp only [List.length_cons, Nat.add_right_cancel_iff] at h
          have hhd : a = b := hall (a, b) (by simp)
          have htl : ta = tb := ih tb h (fun ab hab => hall ab (by simp [hab]))
          rw [hhd, htl]

/-- A valid alignment of `w` against itself with a region scoring `5·|w|`
must be the gap-free identity alignment: that score needs `|w|` match
columns, which exhausts both strings, leaves no room for gaps or mismatches
inside the region, and (by the no-double-gap invariant) no columns outside
it. -/
lemma best_is_identity (w : List Char) (aln : PairAlignment)
    (hgap : gapChar ∉ w)
    (hvalid : ValidAlignment w w aln)
    (hscore : ∃ s n, (5 : ℤ) * w.length ≤ regionScore aln s n) :
    aln.seqA = w ∧ aln.seqB = w := by
  obtain ⟨hlen, hdA, hdB, hnogg⟩ := hvalid
  obtain ⟨s, n, hs⟩ := hscore
  set cs := aln.seqA.zip aln.seqB with hcs
  set mid := (cs.drop s).take n with hmid
  -- character-count budget
  have hwcount : w.countP (fun c => decide (c ≠ gapChar)) = w.length :=
    List.countP_eq_length.mpr (fun c hc => by
      simp only [decide_eq_true_eq]
      intro hcg
      exact hgap (hcg ▸ hc))
  have hAtot : nongapACols cs = w.length := by
    unfold nongapACols
    rw [hcs]
    have h1 : (aln.seqA.zip aln.seqB).countP (fun ab => decide (ab.1 ≠ gapChar))
        = aln.seqA.countP (fun c => decide (c ≠ gapChar)) :=
      countP_zip_fst (fun c => decide (c ≠ gapChar)) aln.seqA aln.seqB hlen
    rw [h1, List.countP_eq_length_filter]
    show (degap aln.seqA).length = w.length
    rw [hdA]
  have hBtot : nongapBCols cs = w.length := by
    unfold nongapBCols
    rw [hcs]
    have h1 : (aln.seqA.zip aln.seqB).countP (fun ab => decide (ab.2 ≠ gapChar))
        = aln.seqB.countP (fun c => decide (c ≠ gapChar)) :=
      countP_zip_snd (fun c => decide (c ≠ gapChar)) aln.seqA aln.seqB hlen
    rw [h1, List.countP_eq_length_filter]
    show (degap aln.seqB).length = w.length
    rw [hdB]
  -- split cs into pre ++ mid ++ post
  have hsplit : cs = cs.take s ++ mid ++ (cs.drop s).drop n := by
    rw [hmid]
    rw [List.append_assoc, List.take_append_drop, List.take_append_drop]
  have hsplitsum : ∀ p : Char × Char → Bool,
      cs.countP p = (cs.take s).countP p + mid.countP p
        + ((cs.drop s).drop n).countP p := by
    intro p
    conv_lhs => rw [hsplit]
    rw [List.countP_append, List.countP_append]
  -- score bounds
  have h1 : regionScore aln s n ≤ 5 * eqCols mid := colScoreAux_le mid none
  have heqle : eqCols mid ≤ nongapACols mid := by
    unfold eqCols nongapACols
    apply List.countP_mono_left
    intro ab _ hp
    simp only [decide_eq_true_eq] at hp ⊢
    exact hp.1
  have hmidle : nongapACols mid ≤ w.length := by
    have := hsplitsum (fun ab => decide (ab.1 ≠ gapChar))
    unfold nongapACols at hAtot ⊢
    omega
  -- forcing
  have heqmid : eqCols mid = w.length := by
    have h2 : (5 : ℤ) * w.length ≤ 5 * eqCols mid := le_trans hs h1
    have : (w.length : ℤ) ≤ eqCols mid := by omega
    have h3 : w.length ≤ eqCols mid := by exact_mod_cast this
    omega
  have hscoreeq : colScoreAux none mid = 5 * eqCols mid := by
    have h2 : (5 : ℤ) * w.length ≤ colScoreAux none mid := hs
    rw [heqmid]
    have := colScoreAux_le mid none
    rw [heqmid] at this
    omega
  have hgapless := colScoreAux_eq_gapless mid none hscoreeq
  have hAmid : nongapACols mid = mid.length :=
    List.countP_eq_length.mpr (fun ab hab => by
      simp only [decide_eq_true_eq]
      exact (hgapless ab hab).1)
  have hBmid : nongapBCols mid = mid.length :=
    List.countP_eq_length.mpr (fun ab hab => by
      simp only [decide_eq_true_eq]
      exact (hgapless ab hab).2)
  have hmidlen : mid.length = w.length := by
    have h4 : nongapACols mid = w.length := by omega
    omega
  -- pre and post are all gap-gap columns, hence empty by validity
  have hApre : (cs.take s).countP (fun ab => decide (ab.1 ≠ gapChar)) = 0 ∧
      ((cs.drop s).drop n).countP (fun ab => decide (ab.1 ≠ gapChar)) = 0 := by
    have := hsplitsum (fun ab => decide (ab.1 ≠ gapChar))
    unfold nongapACols at hAtot hAmid
    constructor <;> omega
  have hBpre : (cs.take s).countP (fun ab => decide (ab.2 ≠ gapChar)) = 0 ∧
      ((cs.drop s).drop n).countP (fun ab => decide (ab.2 ≠ gapChar)) = 0 := by
    have := hsplitsum (fun ab => decide (ab.2 ≠ gapChar))
    unfold nongapBCols at hBtot hBmid
    constructor <;> omega
  have hpre_nil : cs.take s = [] := by
    rw [List.eq_nil_iff_forall_not_mem]
    intro ab hab
    have hA0 : ab.1 = gapChar := by
      have := (List.countP_eq_zero.mp hApre.1) ab hab
      simp only [decide_eq_true_eq] at this
      by_contra hc
      exact this hc
    have hB0 : ab.2 = gapChar := by
      have := (List.countP_eq_zero.mp hBpre.1) ab hab
      simp only [decide_eq_true_eq] at this
      by_contra hc
      exact this hc
    exact hnogg ab (List.mem_of_mem_take hab) ⟨hA0, hB0⟩
  have hpost_nil : (cs.drop s).drop n = [] := by
    rw [List.eq_nil_iff_forall_not_mem]
    intro ab hab
    have hA0 : ab.1 = gapChar := by
      have := (List.countP_eq_zero.mp hApre.2) ab hab
      simp only [decide_eq_true_eq] at this
      by_contra hc
      exact this hc
    have hB0 : ab.2 = gapChar := by
      have := (List.countP_eq_zero.mp hBpre.2) ab hab
      simp only [decide_eq_true_eq] at this
      by_contra hc
      exact this hc
    exact hnogg ab (List.mem_of_mem_drop (List.mem_of_mem_drop hab)) ⟨hA0, hB0⟩
  have hcsmid : cs = mid := by
    rw [hsplit, hpre_nil, hpost_nil]
    simp
  have hlenA : aln.seqA.length = cs.length := by
    rw [hcs, List.length_zip, hlen]
    simp
  have hallpred : ∀ ab ∈ cs, ab.1 ≠ gapChar ∧ ab.1 = ab.2 := by
    have hcard : eqCols cs = cs.length := by
      rw [hcsmid, heqmid, ← hmidlen]
    intro ab hab
    have := List.countP_eq_length.mp hcard ab hab
    simpa using this
  have hAeqB : aln.seqA = aln.seqB :=
    zip_all_eq aln.seqA aln.seqB hlen (fun ab hab => (hallpred ab hab).2)
  have hAw : aln.seqA = w := by
    have hgapless2 : ∀ c ∈ aln.seqA, (decide (c ≠ gapChar)) = true := by
      intro c hc
      have hmem : c ∈ cs.map Prod.fst := by
        rw [hcs, List.map_fst_zip aln.seqA aln.seqB (le_of_eq hlen)]
        exact hc
      obtain ⟨ab, hab, habeq⟩ := List.mem_map.mp hmem
      simp only [decide_eq_true_eq]
      rw [← habeq]
      exact (hallpred ab hab).1
    have : degap aln.seqA = aln.seqA := List.filter_eq_self.mpr hgapless2
    rw [← this, hdA]
  exact ⟨hAw, hAeqB ▸ hAw⟩

lemma enum_snd_mem {α : Type} (l : List α) (ic : ℕ × α) (h : ic ∈ l.enum) : ic.2 ∈ l := by
  rw [List.enum_eq_zip_range] at h
  obtain ⟨ic1, ic2⟩ := ic
  exact (List.of_mem_zip h).2

lemma nongapIdx_gapless (w : List Char) (hgap : gapChar ∉ w) :
    nongapIdx w = List.range w.length := by
  unfold nongapIdx
  have hfil : w.enum.filter (fun ic => decide (ic.2 ≠ gapChar)) = w.enum := by
    apply List.filter_eq_self.mpr
    intro ic hic
    simp only [decide_eq_true_eq]
    intro hc
    exact hgap (hc ▸ enum_snd_mem w ic hic)
  rw [hfil]
  have := List.enum_map_fst w
  simp


lemma alignment_length_id (w : List Char) (hgap : gapChar ∉ w) :
    alignment_length w w = w.length := by
  unfold alignment_length
  have hfil : (w.zip w).filter (fun ab => decide (ab.1 ≠ gapChar ∧ ab.2 ≠ gapChar))
      = w.zip w := by
    apply List.filter_eq_self.mpr
    intro ab hab
    simp only [decide_eq_true_eq]
    obtain ⟨a, b⟩ := ab
    have hm := List.of_mem_zip hab
    constructor
    · intro hc
      exact hgap (hc ▸ hm.1)
    · intro hc
      exact hgap (hc ▸ hm.2)
  rw [hfil, List.length_zip]
  simp

lemma foldl_set_shift (a0 : ℤ) :
    ∀ (l : List (ℕ × ℤ)) (arr : List ℤ),
    l.foldl (fun a pv => a.set (pv.1 + 1) pv.2) (a0 :: arr)
      = a0 :: l.foldl (fun a pv => a.set pv.1 pv.2) arr := by
  intro l
  induction l with
  | nil => intro arr; rfl
  | cons pv rest ih =>
      intro arr
      simp only [List.foldl_cons, List.set_cons_succ]
      exact ih (arr.set pv.1 pv.2)

lemma npArrayAssign_shift (a0 : ℤ) (arr : List ℤ) (ps : List ℕ) (vs : List ℤ) :
    npArrayAssign (a0 :: arr) (ps.map Nat.succ) vs = a0 :: npArrayAssign arr ps vs := by
  unfold npArrayAssign
  rw [List.zip_map_left, List.foldl_map]
  exact foldl_set_shift a0 (ps.zip vs) arr

lemma npArrayAssign_range (vs : List ℤ) :
    npArrayAssign (List.replicate vs.length (-1)) (List.range vs.length) vs = vs := by
  induction vs with
  | nil => rfl
  | cons v vt ih =>
      show npArrayAssign (-1 :: List.replicate vt.length (-1))
          (List.range (vt.length + 1)) (v :: vt) = v :: vt
      rw [List.range_succ_eq_map]
      show ((0 :: (List.range vt.length).map Nat.succ).zip (v :: vt)).foldl
          (fun a pv => a.set pv.1 pv.2) (-1 :: List.replicate vt.length (-1)) = v :: vt
      rw [List.zip_cons_cons, List.foldl_cons]
      show npArrayAssign ((-1 :: List.replicate vt.length (-1)).set 0 v)
          ((List.range vt.length).map Nat.succ) vt = v :: vt
      rw [List.set_cons_zero, npArrayAssign_shift, ih]

lemma getD_range_map (l : List ℤ) (d : ℤ) :
    (List.range l.length).map (fun i => l.getD i d) = l := by
  induction l with
  | nil => rfl
  | cons x xs ih =>
      show (List.range (xs.length + 1)).map (fun i => (x :: xs).getD i d) = x :: xs
      rw [List.range_succ_eq_map, List.map_cons, List.map_map]
      have hfun : ((fun i => (x :: xs).getD i d) ∘ Nat.succ) = fun i => xs.getD i d := by
        funext i
        simp [List.getD_cons_succ]
      rw [List.getD_cons_zero, hfun, ih]

lemma align_features_id (w : List Char) (numbering : List ℤ)
    (hgap : gapChar ∉ w) (hnum : numbering.length = w.length) :
    align_sequence_features_from w w numbering = numbering := by
  simp only [align_sequence_features_from]
  rw [nongapIdx_gapless w hgap, alignment_length_id w hgap]
  have htake : (List.range w.length).take w.length = List.range w.length := by
    apply List.take_of_length_le
    simp
  rw [htake]
  have hvals : (List.range w.length).map (fun i => numbering.getD i 0) = numbering := by
    rw [← hnum]
    exact getD_range_map numbering 0
  rw [hvals]
  have hlen2 : (List.range w.length).length = numbering.length := by simp [hnum]
  rw [hlen2, ← hnum]
  exact npArrayAssign_range numbering

/-- `fix_chain_residues(model, chain, aligned_chain_sequence)`
(lines 562–572): residues zipped against the aligned numbering; a `-1`
entry deletes the residue, any other entry relabels it. -/
def fix_chain_residues (chain : List Residue) (aligned_chain_sequence : List ℤ) : List Residue :=
  (chain.zip aligned_chain_sequence).filterMap
    (fun ra => if ra.2 = -1 then none else some ⟨ra.2, ra.1.atoms⟩)

lemma fix_chain_no_deletion :
    ∀ (l : List (Residue × ℤ)), (∀ x ∈ l, x.2 ≠ -1) →
    l.filterMap (fun ra => if ra.2 = -1 then none else some (⟨ra.2, ra.1.atoms⟩ : Residue))
      = l.map (fun ra => (⟨ra.2, ra.1.atoms⟩ : Residue)) := by
  intro l
  induction l with
  | nil => intro _; rfl
  | cons x rest ih =>
      intro h
      rw [List.filterMap_cons, List.map_cons]
      rw [if_neg (h x (by simp))]
      rw [ih (fun y hy => h y (by simp [hy]))]

/-- C9: when the model chain sequence equals its native counterpart, any
best local alignment the collaborator can return is the gap-free identity,
the derived mapping is exactly the native numbering array (entry `i` is the
native number at index `i`, no `-1` sentinel appears), and applying the
mapping to the chain deletes no residues — it only relabels them. -/
theorem c9_identity_alignment_roundtrip (w : List Char) (numbering : List ℤ)
    (aln : PairAlignment) (chain : List Residue)
    (_hw : w ≠ []) (hgap : gapChar ∉ w)
    (hnum : numbering.length = w.length)
    (hsent : (-1 : ℤ) ∉ numbering)
    (hchain : chain.length = w.length)
    (hvalid : ValidAlignment w w aln)
    (hbest : ∃ s n, ∀ (aln2 : PairAlignment) (s2 n2 : ℕ),
        ValidAlignment w w aln2 → regionScore aln2 s2 n2 ≤ regionScore aln s n) :
    aln.seqA = w ∧ aln.seqB = w ∧
    align_sequence_features_from aln.seqA aln.seqB numbering = numbering ∧
    (-1 : ℤ) ∉ align_sequence_features_from aln.seqA aln.seqB numbering ∧
    fix_chain_residues chain (align_sequence_features_from aln.seqA aln.seqB numbering)
      = (chain.zip numbering).map (fun rn => (⟨rn.2, rn.1.atoms⟩ : Residue)) ∧
    (fix_chain_residues chain (align_sequence_features_from aln.seqA aln.seqB numbering)).length
      = chain.length := by
  -- the identity alignment of w with itself
  have hidvalid : ValidAlignment w w ⟨w, w⟩ := by
    refine ⟨rfl, ?_, ?_, ?_⟩
    · apply List.filter_eq_self.mpr
      intro c hc
      simp only [decide_eq_true_eq]
      intro hcg
      exact hgap (hcg ▸ hc)
    · apply List.filter_eq_self.mpr
      intro c hc
      simp only [decide_eq_true_eq]
      intro hcg
      exact hgap (hcg ▸ hc)
    · intro ab hab hgg
      exact hgap (hgg.1 ▸ (List.of_mem_zip hab).1)
  -- the identity alignment scores 5·|w| on its full region
  have hidscore : regionScore ⟨w, w⟩ 0 (w.zip w).length = 5 * w.length := by
    unfold regionScore
    simp only [List.drop_zero, List.take_length]
    have hgen : ∀ (u : List Char), gapChar ∉ u →
        colScoreAux none (u.zip u) = 5 * u.length := by
      intro u
      induction u with
      | nil => intro _; rfl
      | cons c t iht =>
          intro hnotin
          have hc : c ≠ gapChar := fun hc => hnotin (hc ▸ List.mem_cons_self c t)
          show colScoreAux none ((c, c) :: t.zip t) = 5 * (t.length + 1)
          unfold colScoreAux
          rw [if_neg hc, if_neg hc, if_pos rfl]
          rw [iht (fun hm => hnotin (List.mem_cons_of_mem c hm))]
          ring
    exact hgen w hgap
  obtain ⟨s, n, hb⟩ := hbest
  have hge : (5 : ℤ) * w.length ≤ regionScore aln s n := by
    have := hb ⟨w, w⟩ 0 (w.zip w).length hidvalid
    rw [hidscore] at this
    exact this
  obtain ⟨hA, hB⟩ := best_is_identity w aln hgap hvalid ⟨s, n, hge⟩
  have hfeat : align_sequence_features_from aln.seqA aln.seqB numbering = numbering := by
    rw [hA, hB]
    exact align_features_id w numbering hgap hnum
  refine ⟨hA, hB, hfeat, ?_, ?_, ?_⟩
  · rw [hfeat]; exact hsent
  · rw [hfeat]
    unfold fix_chain_residues
    apply fix_chain_no_deletion
    intro x hx
    intro hc
    exact hsent (hc ▸ (List.of_mem_zip hx).2)
  · rw [hfeat]
    unfold fix_chain_residues
    rw [fix_chain_no_deletion _ (fun x hx hc => hsent (hc ▸ (List.of_mem_zip hx).2))]
    rw [List.length_map, List.length_zip]
    rw [hchain, ← hnum]
    simp

/-- No region of a valid alignment can score more than five points per
model residue (each match column consumes one model-string residue). -/
lemma regionScore_le_five_mul (modelSeq : List Char) (aln : PairAlignment)
    (hgap : gapChar ∉ modelSeq) (hlen : aln.seqA.length = aln.seqB.length)
    (hdA : degap aln.seqA = modelSeq) (s n : ℕ) :
    regionScore aln s n ≤ 5 * modelSeq.length := by
  set cs := aln.seqA.zip aln.seqB with hcs
  set mid := (cs.drop s).take n with hmid
  have hwcount : modelSeq.countP (fun c => decide (c ≠ gapChar)) = modelSeq.length :=
    List.countP_eq_length.mpr (fun c hc => by
      simp only [decide_eq_true_eq]
      intro hcg
      exact hgap (hcg ▸ hc))
  have hAtot : nongapACols cs = modelSeq.length := by
    unfold nongapACols
    rw [hcs]
    have h1 : (aln.seqA.zip aln.seqB).countP (fun ab => decide (ab.1 ≠ gapChar))
        = aln.seqA.countP (fun c => decide (c ≠ gapChar)) :=
      countP_zip_fst (fun c => decide (c ≠ gapChar)) aln.seqA aln.seqB hlen
    rw [h1, List.countP_eq_length_filter]
    show (degap aln.seqA).length = modelSeq.length
    rw [hdA]
  have h1 : regionScore aln s n ≤ 5 * eqCols mid := colScoreAux_le mid none
  have heqle : eqCols mid ≤ nongapACols mid := by
    unfold eqCols nongapACols
    apply List.countP_mono_left
    intro ab _ hp
    simp only [decide_eq_true_eq] at hp ⊢
    exact hp.1
  have hmidle : nongapACols mid ≤ nongapACols cs := by
    have hsplit : cs = cs.take s ++ mid ++ (cs.drop s).drop n := by
      rw [hmid, List.append_assoc, List.take_append_drop, List.take_append_drop]
    unfold nongapACols
    conv_rhs => rw [hsplit]
    rw [List.countP_append, List.countP_append]
    omega
  have : eqCols mid ≤ modelSeq.length := by omega
  have h2 : (5 : ℤ) * eqCols mid ≤ 5 * modelSeq.length := by
    have := this
    omega
  exact le_trans h1 h2

/-- C9 witness sequence. -/
def c9_w : List Char := "AB".toList

/-- C9 witness native numbering. -/
def c9_numbering : List ℤ := [5, 9]

/-- C9 witness model chain. -/
def c9_chain : List Residue := [⟨1, [⟨"CA", 0, 0, 0⟩]⟩, ⟨2, [⟨"CA", 1, 0, 0⟩]⟩]

/-- Witness for C9 at a concrete two-residue chain: the hypotheses hold
(the identity alignment is best since no alignment of `AB` with itself can
beat `5·2`), and the mapping is the identity relabelling. -/
theorem c9_identity_alignment_roundtrip_witness :
    (⟨c9_w, c9_w⟩ : PairAlignment).seqA = c9_w ∧
    (⟨c9_w, c9_w⟩ : PairAlignment).seqB = c9_w ∧
    align_sequence_features_from c9_w c9_w c9_numbering = c9_numbering ∧
    (-1 : ℤ) ∉ align_sequence_features_from c9_w c9_w c9_numbering ∧
    fix_chain_residues c9_chain (align_sequence_features_from c9_w c9_w c9_numbering)
      = (c9_chain.zip c9_numbering).map (fun rn => (⟨rn.2, rn.1.atoms⟩ : Residue)) ∧
    (fix_chain_residues c9_chain (align_sequence_features_from c9_w c9_w c9_numbering)).length
      = c9_chain.length :=
  c9_identity_alignment_roundtrip c9_w c9_numbering ⟨c9_w, c9_w⟩ c9_chain
    (by decide) (by decide) (by decide) (by decide) (by decide)
    ⟨rfl, by decide, by decide, by decide⟩
    ⟨0, 2, fun aln2 s2 n2 hv =>
      le_trans (regionScore_le_five_mul c9_w aln2 (by decide) hv.1 hv.2.1 s2 n2)
        (by
          have : regionScore ⟨c9_w, c9_w⟩ 0 2 = 10 := by decide
          rw [this]
          decide)⟩

/-- The exhibited C8 alignment scores `32` over its full 22-column region
under the source's scoring parameters. -/
lemma c8_candidate_region_score : regionScore c8_aln 0 22 = 32 := by decide
